import Mathlib

/-!
Shallow embedding of `cs1000.py`, the Minolta CS-1000 serial driver.

The driver state mirrors the fields of class `CS1000`: the stored result
mapping `results` (a Python dict, modelled as an insertion-ordered
association list), the serial handle `com` (`None`, an open port, or a
fresh unopened `serial.Serial()` object), and the `remote` flag.

The serial line is modelled by a `Wire`: `wres i` tells whether the i-th
write attempt succeeds, `rres i` gives the i-th reply line (`none` models a
read failure).  Reply lines include any trailing newline the device sent,
exactly as `readline()` returns them.  The wire also records a `trace` of
events: each successful write (with the command string and the value of the
`remote` flag at the moment of the write) and each successful read.

Python exceptions are modelled by `Out`: an operation either returns
normally (`ok`) or raises (`err`), and in both cases the driver state and
wire at that moment are kept, since Python mutations performed before an
exception persist.  I/O failures (including writes on a closed or missing
port, which the spec classifies as transport errors) are `Err.transport`;
`ValueError` from `float()` and an out-of-range reply-field index are
`Err.parse`.

`float()` and `str.strip()` are modelled on plain decimal literals
(optional sign, digits, optional fractional part, surrounded by optional
whitespace), which covers every numeric form the CS-1000 replies use.  A
parsed float is kept exactly, as a decimal `Dec`: a mantissa and a power of
ten, canonicalized so that distinct representations of the same value
coincide; the driver only stores parsed values and never computes with
them, so this is faithful.
-/

namespace CS1000

/-- Error kinds of the driver: transport failures and reply-parse failures. -/
inductive Err where
  | transport
  | parse
deriving DecidableEq, Repr

/-- A serial handle: an open port, or a fresh unopened `serial.Serial()`. -/
inductive ComHandle where
  | opened
  | fresh
deriving DecidableEq, Repr

/-- An exact decimal value `man / 10 ^ exp`, the model of a parsed float. -/
structure Dec where
  man : ℤ
  exp : ℕ
deriving DecidableEq, Repr

/-- Canonicalize a decimal: strip factors of ten from the mantissa while
the exponent is positive, so equal values get equal representations. -/
def decCanon : ℤ → ℕ → Dec
  | m, 0 => ⟨m, 0⟩
  | m, e + 1 => if m % 10 = 0 then decCanon (m / 10) e else ⟨m, e + 1⟩

/-- Negation of a decimal (canonical if the input is). -/
def Dec.neg (d : Dec) : Dec :=
  ⟨-d.man, d.exp⟩

/-- The decimal value of a natural number. -/
def Dec.ofNat (n : ℕ) : Dec :=
  ⟨(n : ℤ), 0⟩

/-- A value stored in the result dict: a parsed float, a raw reply
substring, or the assembled spectrum. -/
inductive Value where
  | num (d : Dec)
  | str (s : String)
  | spec (pairs : List (Dec × Dec))
deriving DecidableEq, Repr

/-- The result mapping, as an insertion-ordered association list
(the model of a Python dict). -/
abbrev Results := List (String × Value)

/-- The mutable state of a `CS1000` instance: `results`, `com`, `remote`. -/
structure St where
  results : Results
  com : Option ComHandle
  remote : Bool
deriving DecidableEq, Repr

/-- A wire event: a successful write of a command (recording the `remote`
flag at the moment of the write) or a successful read of one reply line. -/
inductive Ev where
  | wr (cmd : String) (remote : Bool)
  | rd
deriving DecidableEq, Repr

/-- The modelled serial line: outcomes of successive writes and reads, the
indices of the next write and read, and the event trace so far. -/
structure Wire where
  wres : Nat → Bool
  rres : Nat → Option String
  wi : Nat
  ri : Nat
  trace : List Ev

/-- Outcome of a driver operation: normal return or a raised exception,
together with the driver state and the wire at that moment. -/
inductive Out (α : Type) where
  | ok (a : α) (st : St) (w : Wire)
  | err (e : Err) (st : St) (w : Wire)

/-- Sequencing with Python exception semantics: an exception aborts the
rest of the computation, keeping the state reached so far. -/
def Out.bind {α β : Type} (x : Out α) (f : α → St → Wire → Out β) : Out β :=
  match x with
  | Out.ok a st w => f a st w
  | Out.err e st w => Out.err e st w

/-- The exception raised by an operation, if any. -/
def Out.errOf {α : Type} : Out α → Option Err
  | Out.ok _ _ _ => none
  | Out.err e _ _ => some e

/-- The driver state after an operation (also on an exception). -/
def Out.stOf {α : Type} : Out α → St
  | Out.ok _ st _ => st
  | Out.err _ st _ => st

/-- The wire after an operation (also on an exception). -/
def Out.wOf {α : Type} : Out α → Wire
  | Out.ok _ _ w => w
  | Out.err _ _ w => w

/-- Wire after one successful write of `cmd` with remote flag `r`. -/
def advW (w : Wire) (cmd : String) (r : Bool) : Wire :=
  { w with wi := w.wi + 1, trace := w.trace ++ [Ev.wr cmd r] }

/-- Wire after one successful read. -/
def advR (w : Wire) : Wire :=
  { w with ri := w.ri + 1, trace := w.trace ++ [Ev.rd] }

/-- `self.com.write(cmd)`: fails unless the handle is an open port and the
wire accepts this write. -/
def writeCmd (cmd : String) (st : St) (w : Wire) : Out Unit :=
  match st.com with
  | some ComHandle.opened =>
      if w.wres w.wi then Out.ok () st (advW w cmd st.remote)
      else Out.err Err.transport st w
  | _ => Out.err Err.transport st w

/-- `self.com.readline()`: fails unless the handle is an open port and the
wire has a reply line. -/
def readLine (st : St) (w : Wire) : Out String :=
  match st.com with
  | some ComHandle.opened =>
      match w.rres w.ri with
      | some s => Out.ok s st (advR w)
      | none => Out.err Err.transport st w
  | _ => Out.err Err.transport st w

/-- Characters stripped by Python `str.strip()` (the ASCII whitespace
relevant to serial replies). -/
def pyWS (c : Char) : Bool :=
  c = ' ' || c = '\t' || c = '\n' || c = '\r' || c = '\x0b' || c = '\x0c'

/-- Drop trailing whitespace from a character list. -/
def stripBack (cs : List Char) : List Char :=
  (cs.reverse.dropWhile pyWS).reverse

/-- Python `str.strip()` on a character list. -/
def pyStripL (cs : List Char) : List Char :=
  stripBack (cs.dropWhile pyWS)

/-- Python `str.strip()`. -/
def pyStrip (s : String) : String :=
  (pyStripL s.data).asString

/-- Value of a digit string (most significant first). -/
def digitsVal (cs : List Char) : ℕ :=
  cs.foldl (fun a c => 10 * a + (c.toNat - 48)) 0

/-- Parse an unsigned decimal literal: digits with at most one point and at
least one digit (`12`, `12.3`, `12.`, `.3`). -/
def parsePos (cs : List Char) : Option Dec :=
  let ip := cs.takeWhile (fun c => c ≠ '.')
  match cs.dropWhile (fun c => c ≠ '.') with
  | [] =>
      if (!ip.isEmpty) && ip.all Char.isDigit then
        some (decCanon (digitsVal ip) 0)
      else none
  | _ :: fp =>
      if (!ip.isEmpty || !fp.isEmpty) && ip.all Char.isDigit && fp.all Char.isDigit then
        some (decCanon (digitsVal ip * 10 ^ fp.length + digitsVal fp) fp.length)
      else none

/-- Python `float()` on the decimal literals the CS-1000 emits: surrounding
whitespace is ignored, then an optional sign and an unsigned literal. -/
def pyFloat (s : String) : Option Dec :=
  match pyStripL s.data with
  | [] => none
  | '+' :: cs => parsePos cs
  | '-' :: cs => (parsePos cs).map Dec.neg
  | cs => parsePos cs

/-- One step of splitting on a separator, from the right. -/
def splitCharAux (sep : Char) (c : Char) (acc : List (List Char)) : List (List Char) :=
  match acc with
  | [] => [[c]]
  | a :: as => if c = sep then [] :: a :: as else (c :: a) :: as

/-- Python `str.split(sep)` for a one-character separator
(`"".split(',') = [""]`, empty fields kept). -/
def pySplit (sep : Char) (s : String) : List String :=
  (s.data.foldr (splitCharAux sep) [[]]).map List.asString

/-- The parse applied to each spectral token: `float(a.strip())`
(line 165 of `cs1000.py`). -/
def specTok (a : String) : Option Dec :=
  pyFloat (pyStrip a)

/-- Parse every token of a spectral reply line; `none` as soon as one token
fails (the raised `ValueError`). -/
def parseFloats : List String → Option (List Dec)
  | [] => some []
  | s :: rest =>
      match specTok s with
      | none => none
      | some q =>
          match parseFloats rest with
          | none => none
          | some qs => some (q :: qs)

/-- Python dict assignment `m[k] = v`: replace in place if the key exists,
otherwise append (insertion order preserved). -/
def dictSet (m : Results) (k : String) (v : Value) : Results :=
  match m with
  | [] => [(k, v)]
  | (k₁, v₁) :: rest =>
      if k₁ = k then (k, v) :: rest else (k₁, v₁) :: dictSet rest k v

/-- Python dict lookup `m[k]` (as an `Option`). -/
def dictGet (m : Results) (k : String) : Option Value :=
  match m with
  | [] => none
  | (k₁, v₁) :: rest => if k₁ = k then some v₁ else dictGet rest k

/-- The key list of a dict, in insertion order. -/
def keysOf (m : Results) : List String :=
  m.map Prod.fst

/-- Effect of one dict assignment on the key list. -/
def insKey (ks : List String) (k : String) : List String :=
  if k ∈ ks then ks else ks ++ [k]

/-- Effect of a sequence of dict assignments on the key list. -/
def insertKeys (ks : List String) (l : List String) : List String :=
  l.foldl insKey ks

/-- Whether a result field is parsed with `float()` or stored raw. -/
inductive FieldKind where
  | flt
  | raw
deriving DecidableEq, Repr

/-- One assignment `self.results[k] = float(ans[i])` (or `= ans[i]` raw):
an out-of-range index or a failing `float()` raises, leaving the dict as it
was before this assignment. -/
def storeOne (res : Results) (toks : List String) : String × ℕ × FieldKind → Results × Option Err
  | (k, i, FieldKind.flt) =>
      if i < toks.length then
        match pyFloat (toks.getD i "") with
        | some q => (dictSet res k (Value.num q), none)
        | none => (res, some Err.parse)
      else (res, some Err.parse)
  | (k, i, FieldKind.raw) =>
      if i < toks.length then (dictSet res k (Value.str (toks.getD i "")), none)
      else (res, some Err.parse)

/-- Run a block of assignments in order, stopping at the first exception
and keeping the assignments already performed. -/
def storeFields : Results → List String → List (String × ℕ × FieldKind) → Results × Option Err
  | res, _, [] => (res, none)
  | res, toks, f :: fs =>
      match storeOne res toks f with
      | (res₁, none) => storeFields res₁ toks fs
      | (res₁, some e) => (res₁, some e)

/-- The eleven assignments of one observer block of `measure()`
(lines 119-129 resp. 141-151 of `cs1000.py`), in statement order; note that
`T` is stored raw from index 9 and `Duv` raw from index 8, the index of `v`. -/
def blockFields (sfx : String) : List (String × ℕ × FieldKind) :=
  [("Le" ++ sfx, 0, FieldKind.flt), ("Lv" ++ sfx, 1, FieldKind.flt),
   ("X" ++ sfx, 2, FieldKind.flt), ("Y" ++ sfx, 3, FieldKind.flt),
   ("Z" ++ sfx, 4, FieldKind.flt), ("x" ++ sfx, 5, FieldKind.flt),
   ("y" ++ sfx, 6, FieldKind.flt), ("u" ++ sfx, 7, FieldKind.flt),
   ("v" ++ sfx, 8, FieldKind.flt), ("T" ++ sfx, 9, FieldKind.raw),
   ("Duv" ++ sfx, 8, FieldKind.raw)]

/-- The keys of the nine float fields of one observer block, in order. -/
def floatKeys (sfx : String) : List String :=
  ["Le" ++ sfx, "Lv" ++ sfx, "X" ++ sfx, "Y" ++ sfx, "Z" ++ sfx,
   "x" ++ sfx, "y" ++ sfx, "u" ++ sfx, "v" ++ sfx]

/-- Store one observer block parsed from the split data line. -/
def storeBlock (sfx : String) (toks : List String) (st : St) (w : Wire) : Out Unit :=
  match storeFields st.results toks (blockFields sfx) with
  | (res, none) => Out.ok () { st with results := res } w
  | (res, some e) => Out.err e { st with results := res } w

/-- `CS1000.set_remote` (lines 74-92): turning remote on writes `RMT,1` and
reads one reply before setting the flag; turning remote off writes `RMT,0`,
awaits no reply, clears the flag and replaces the handle by a fresh
unopened `serial.Serial()`; a call requesting the current state does
nothing. -/
def set_remote (turnOn : Bool) (st : St) (w : Wire) : Out Unit :=
  if turnOn then
    if st.remote then Out.ok () st w
    else
      Out.bind (writeCmd "RMT,1" st w) fun _ st w =>
      Out.bind (readLine st w) fun _ st w =>
      Out.ok () { st with remote := true } w
  else
    if st.remote then
      Out.bind (writeCmd "RMT,0" st w) fun _ st w =>
      Out.ok () { st with remote := false, com := some ComHandle.fresh } w
    else Out.ok () st w

/-- `CS1000.get_connected` (line 47): `not self.com is None`. -/
def get_connected (st : St) : Bool :=
  st.com.isSome

/-- `CS1000.get_remote`. -/
def get_remote (st : St) : Bool :=
  st.remote

/-- `CS1000.get_results`. -/
def get_results (st : St) : Results :=
  st.results

/-- `CS1000.disconnect` (lines 59-66): turn remote off if it is on, then
clear the handle.  If `set_remote(False)` raises, the handle is not
cleared. -/
def disconnect (st : St) (w : Wire) : Out Unit :=
  Out.bind (if st.remote then set_remote false st w else Out.ok () st w) fun _ st w =>
  Out.ok () { st with com := none } w

/-- `CS1000.connect` (lines 49-57), with the port and baud rate abstracted
away: turn remote off if it is on, then install an open handle. -/
def connect (st : St) (w : Wire) : Out Unit :=
  Out.bind (if st.remote then set_remote false st w else Out.ok () st w) fun _ st w =>
  Out.ok () { st with com := some ComHandle.opened } w

/-- Lines 99-100 of `measure()`: enable remote control if it is off. -/
def ensure (st : St) (w : Wire) : Out Unit :=
  if st.remote then Out.ok () st w else set_remote true st w

/-- Lines 102-107: send `MES,1` and read two reply lines. -/
def mesPhase (st : St) (w : Wire) : Out Unit :=
  Out.bind (writeCmd "MES,1" st w) fun _ st w =>
  Out.bind (readLine st w) fun _ st w =>
  Out.bind (readLine st w) fun _ st w =>
  Out.ok () st w

/-- One observer block of `measure()`: send the `BDR` select command, read
its reply, send `&`, read the data line, split it on commas and run the
eleven assignments. -/
def blockPhase (bdr sfx : String) (st : St) (w : Wire) : Out Unit :=
  Out.bind (writeCmd bdr st w) fun _ st w =>
  Out.bind (readLine st w) fun _ st w =>
  Out.bind (writeCmd "&" st w) fun _ st w =>
  Out.bind (readLine st w) fun line st w =>
  storeBlock sfx (pySplit ',' line) st w

/-- The spectral loop (lines 158-165): `n` times send `&`, read a line,
split it and parse every token with `float(a.strip())`, accumulating the
intensities. -/
def specLoop : ℕ → List Dec → St → Wire → Out (List Dec)
  | 0, acc, st, w => Out.ok acc st w
  | n + 1, acc, st, w =>
      Out.bind (writeCmd "&" st w) fun _ st w =>
      Out.bind (readLine st w) fun line st w =>
        match parseFloats (pySplit ',' line) with
        | some qs => specLoop n (acc ++ qs) st w
        | none => Out.err Err.parse st w

/-- Lines 166-169: pair each intensity with its wavelength, `w0 + index`
nanometres (`w0 = 380`). -/
def spectrumPairs (w0 : ℕ) : List Dec → List (Dec × Dec)
  | [] => []
  | q :: rest => (Dec.ofNat w0, q) :: spectrumPairs (w0 + 1) rest

/-- Lines 153-169: select the spectral block, run the 15-iteration loop and
store the assembled spectrum. -/
def spectralPhase (st : St) (w : Wire) : Out Unit :=
  Out.bind (writeCmd "BDR,0,0,0" st w) fun _ st w =>
  Out.bind (readLine st w) fun _ st w =>
  Out.bind (specLoop 15 [] st w) fun ints st w =>
  Out.ok () { st with results := dictSet st.results "spectrum" (Value.spec (spectrumPairs 380 ints)) } w

/-- The body of `measure()` after remote control has been ensured. -/
def measureMain (st : St) (w : Wire) : Out Unit :=
  Out.bind (mesPhase st w) fun _ st w =>
  Out.bind (blockPhase "BDR,1,0,0" "2" st w) fun _ st w =>
  Out.bind (blockPhase "BDR,1,1,0" "10" st w) fun _ st w =>
  spectralPhase st w

/-- `CS1000.measure` (lines 94-170). -/
def measure (st : St) (w : Wire) : Out Unit :=
  Out.bind (ensure st w) fun _ st w =>
  measureMain st w

/-- The measurement commands of the protocol. -/
def measCmds : List String :=
  ["MES,1", "BDR,1,0,0", "BDR,1,1,0", "BDR,0,0,0", "&"]

/-- The wire events of one complete `measure()` exchange after remote
control is already on. -/
def measEvs : List Ev :=
  [Ev.wr "MES,1" true, Ev.rd, Ev.rd,
   Ev.wr "BDR,1,0,0" true, Ev.rd, Ev.wr "&" true, Ev.rd,
   Ev.wr "BDR,1,1,0" true, Ev.rd, Ev.wr "&" true, Ev.rd,
   Ev.wr "BDR,0,0,0" true, Ev.rd] ++
  (List.replicate 15 [Ev.wr "&" true, Ev.rd]).flatten

/-- All 23 keys a completed measurement stores, in insertion order: the 22
scalar fields and the spectrum. -/
def allKeys : List String :=
  ["Le2", "Lv2", "X2", "Y2", "Z2", "x2", "y2", "u2", "v2", "T2", "Duv2",
   "Le10", "Lv10", "X10", "Y10", "Z10", "x10", "y10", "u10", "v10", "T10", "Duv10",
   "spectrum"]

/-- All write events among `evs` carry the remote flag `r`. -/
def flagsLe (r : Bool) (evs : List Ev) : Prop :=
  ∀ c b, Ev.wr c b ∈ evs → b = r

/-- A deterministic well-formed set of canned reply lines: two `MES`
acknowledgements, the `BDR` acknowledgements, the two data lines (the 2°
one being the worked example of the specification) and 15 spectral lines of
10 values each. -/
def cannedReplies : List String :=
  ["OK\n", "OK\n", "OK\n",
   "12.3,45.6,1.1,2.2,3.3,0.33,0.34,0.1,0.2,6500",
   "OK\n", "1.5,2.5,3.5,4.5,5.5,0.41,0.42,0.21,0.22,5003\n",
   "OK\n"] ++ List.replicate 15 "0.1,0.2,0.3,0.4,0.5,0.6,0.7,0.8,0.9,1.1\n"

/-- A wire delivering the canned replies with every write accepted. -/
def wGood : Wire :=
  { wres := fun _ => true, rres := fun i => cannedReplies[i]?, wi := 0, ri := 0, trace := [] }

/-- A connected driver with remote already enabled and no stored results. -/
def stGood : St :=
  { results := [], com := some ComHandle.opened, remote := true }

/-- Like `stGood` but with remote control still off. -/
def stGoodOff : St :=
  { results := [], com := some ComHandle.opened, remote := false }

/-- The canned replies preceded by the `RMT,1` acknowledgement. -/
def wGoodR : Wire :=
  { wres := fun _ => true, rres := fun i => ("ROK\n" :: cannedReplies)[i]?, wi := 0, ri := 0, trace := [] }

/-- A connected, remote-enabled driver holding one previously stored
result. -/
def stPrev : St :=
  { results := [("Le2", Value.num ⟨99, 0⟩)], com := some ComHandle.opened, remote := true }

/-- Replies whose 2° block completes but whose 10° data read then fails:
the reply list is exhausted right before the second data line. -/
def brokenReplies : List String :=
  ["OK\n", "OK\n", "OK\n",
   "12.3,45.6,1.1,2.2,3.3,0.33,0.34,0.1,0.2,6500\n", "OK\n"]

/-- A wire that delivers `brokenReplies` and then fails every read. -/
def wBroken : Wire :=
  { wres := fun _ => true, rres := fun i => brokenReplies[i]?, wi := 0, ri := 0, trace := [] }

/-- A wire that fails on the third read, before any data line arrives. -/
def wEarlyFail : Wire :=
  { wres := fun _ => true, rres := fun i => (["OK\n", "OK\n"])[i]?, wi := 0, ri := 0, trace := [] }

/-- A wire on which every write attempt fails. -/
def wDeadPort : Wire :=
  { wres := fun _ => false, rres := fun _ => none, wi := 0, ri := 0, trace := [] }

/-- The eleven scalar keys of one observer block together with the data
read after `BDR,1,0,0` resp. `BDR,1,1,0`, as claimed of `measure()`: the
conclusion of the parsing claim, for a driver state `st` and wire `w` with
remote control already enabled.  The 2° data line is the 4th reply
(index `w.ri + 3`), the 10° data line the 6th (index `w.ri + 5`); the first
nine comma-separated fields are stored as parsed floats under the
`floatKeys`, the 10th field raw under `T`, and `Duv` raw from index 8, the
index of `v`. -/
def c2Concl (st : St) (w : Wire) : Prop :=
  ∃ line2 line10 : String,
    w.rres (w.ri + 3) = some line2 ∧ w.rres (w.ri + 5) = some line10 ∧
    (∀ i, i < 9 → ∃ q, pyFloat ((pySplit ',' line2).getD i "") = some q ∧
      dictGet (measure st w).stOf.results ((floatKeys "2").getD i "") = some (Value.num q)) ∧
    dictGet (measure st w).stOf.results "T2" = some (Value.str ((pySplit ',' line2).getD 9 "")) ∧
    dictGet (measure st w).stOf.results "Duv2" = some (Value.str ((pySplit ',' line2).getD 8 "")) ∧
    (∀ i, i < 9 → ∃ q, pyFloat ((pySplit ',' line10).getD i "") = some q ∧
      dictGet (measure st w).stOf.results ((floatKeys "10").getD i "") = some (Value.num q)) ∧
    dictGet (measure st w).stOf.results "T10" = some (Value.str ((pySplit ',' line10).getD 9 "")) ∧
    dictGet (measure st w).stOf.results "Duv10" = some (Value.str ((pySplit ',' line10).getD 8 ""))

/-- The claimed shape of the stored spectrum for a run of `measure()` from
a remote-enabled state on wire `w`: the 15 spectral reply lines (read at
indices `w.ri + 7 + j`), their concatenated token sequence parsed as 150
floats, and the stored value pairing intensity `i` with wavelength
`380 + i`. -/
def c4Concl (st : St) (w : Wire) : Prop :=
  ∃ (lines : List String) (ints : List Dec),
    lines.length = 15 ∧
    (∀ j, j < 15 → w.rres (w.ri + 7 + j) = some (lines.getD j "")) ∧
    parseFloats ((lines.map (pySplit ',')).flatten) = some ints ∧
    ints.length = 150 ∧
    dictGet (measure st w).stOf.results "spectrum" =
      some (Value.spec (spectrumPairs 380 ints)) ∧
    (spectrumPairs 380 ints).length = 150 ∧
    (∀ i, i < 150 → ∃ q,
      specTok (((lines.map (pySplit ',')).flatten).getD i "") = some q ∧
      (spectrumPairs 380 ints).getD i (⟨0, 0⟩, ⟨0, 0⟩) = (Dec.ofNat (380 + i), q))

/-- Canned replies carrying realistic whitespace: CR-LF terminated lines
(so the raw-stored `T` fields keep a trailing `"\r\n"`), an internal
space before the `v` token of the 2° line, and padded spectral tokens. -/
def wsReplies : List String :=
  ["OK\r\n", "OK\r\n", "OK\r\n",
   "12.3,45.6,1.1,2.2,3.3,0.33,0.34,0.1, 0.2,6500\r\n",
   "OK\r\n", "1.5,2.5,3.5,4.5,5.5,0.41,0.42,0.21,0.22,5003\r\n",
   "OK\r\n"] ++ List.replicate 15 " 0.1, 0.2 ,0.3,0.4,0.5,0.6,0.7,0.8,0.9,1.1 \n"

/-- A wire delivering the whitespace-laden replies. -/
def wWs : Wire :=
  { wres := fun _ => true, rres := fun i => wsReplies[i]?, wi := 0, ri := 0, trace := [] }

@[simp] theorem Out.bind_ok {α β : Type} (a : α) (st : St) (w : Wire) (f : α → St → Wire → Out β) :
    Out.bind (Out.ok a st w) f = f a st w := rfl

@[simp] theorem Out.bind_err {α β : Type} (e : Err) (st : St) (w : Wire) (f : α → St → Wire → Out β) :
    Out.bind (Out.err e st w) f = Out.err e st w := rfl

@[simp] theorem Out.errOf_ok {α : Type} (a : α) (st : St) (w : Wire) :
    (Out.ok a st w).errOf = none := rfl

@[simp] theorem Out.errOf_err {α : Type} (e : Err) (st : St) (w : Wire) :
    (Out.err e st w : Out α).errOf = some e := rfl

@[simp] theorem Out.stOf_ok {α : Type} (a : α) (st : St) (w : Wire) :
    (Out.ok a st w).stOf = st := rfl

@[simp] theorem Out.stOf_err {α : Type} (e : Err) (st : St) (w : Wire) :
    (Out.err e st w : Out α).stOf = st := rfl

@[simp] theorem Out.wOf_ok {α : Type} (a : α) (st : St) (w : Wire) :
    (Out.ok a st w).wOf = w := rfl

@[simp] theorem Out.wOf_err {α : Type} (e : Err) (st : St) (w : Wire) :
    (Out.err e st w : Out α).wOf = w := rfl

@[simp] theorem advW_wres (w : Wire) (c : String) (r : Bool) : (advW w c r).wres = w.wres := rfl

@[simp] theorem advW_rres (w : Wire) (c : String) (r : Bool) : (advW w c r).rres = w.rres := rfl

@[simp] theorem advW_wi (w : Wire) (c : String) (r : Bool) : (advW w c r).wi = w.wi + 1 := rfl

@[simp] theorem advW_ri (w : Wire) (c : String) (r : Bool) : (advW w c r).ri = w.ri := rfl

@[simp] theorem advW_trace (w : Wire) (c : String) (r : Bool) :
    (advW w c r).trace = w.trace ++ [Ev.wr c r] := rfl

@[simp] theorem advR_wres (w : Wire) : (advR w).wres = w.wres := rfl

@[simp] theorem advR_rres (w : Wire) : (advR w).rres = w.rres := rfl

@[simp] theorem advR_wi (w : Wire) : (advR w).wi = w.wi := rfl

@[simp] theorem advR_ri (w : Wire) : (advR w).ri = w.ri + 1 := rfl

@[simp] theorem advR_trace (w : Wire) : (advR w).trace = w.trace ++ [Ev.rd] := rfl

theorem flagsLe_nil (r : Bool) : flagsLe r [] := by
  intro c b hb
  exact absurd hb (List.not_mem_nil _)

theorem flagsLe_append {r : Bool} {e₁ e₂ : List Ev} (h₁ : flagsLe r e₁) (h₂ : flagsLe r e₂) :
    flagsLe r (e₁ ++ e₂) := by
  intro c b hb
  rcases List.mem_append.mp hb with h | h
  exacts [h₁ c b h, h₂ c b h]

theorem flagsLe_wr (r : Bool) (c : String) : flagsLe r [Ev.wr c r] := by
  intro c' b hb
  rw [List.mem_singleton] at hb
  injection hb

theorem flagsLe_rd (r : Bool) : flagsLe r [Ev.rd] := by
  intro c b hb
  rw [List.mem_singleton] at hb
  exact Ev.noConfusion hb

theorem flagsLe_cons {r : Bool} {c : String} {evs : List Ev}
    (h : flagsLe r evs) : flagsLe r (Ev.wr c r :: evs) := by
  intro c' b hb
  rcases List.mem_cons.mp hb with h' | h'
  · injection h'
  · exact h c' b h'

theorem flagsLe_rd_cons {r : Bool} {evs : List Ev}
    (h : flagsLe r evs) : flagsLe r (Ev.rd :: evs) := by
  intro c b hb
  rcases List.mem_cons.mp hb with h' | h'
  · exact Ev.noConfusion h'
  · exact h c b h'

theorem writeCmd_cases (cmd : String) (st : St) (w : Wire) :
    writeCmd cmd st w = Out.err Err.transport st w ∨
    (st.com = some ComHandle.opened ∧ w.wres w.wi = true ∧
      writeCmd cmd st w = Out.ok () st (advW w cmd st.remote)) := by
  unfold writeCmd
  cases hcom : st.com with
  | none => exact Or.inl rfl
  | some c =>
    cases c with
    | fresh => exact Or.inl rfl
    | opened =>
      cases hw : w.wres w.wi with
      | false => simp [hw]
      | true => simp [hw]

theorem readLine_cases (st : St) (w : Wire) :
    readLine st w = Out.err Err.transport st w ∨
    (∃ s, st.com = some ComHandle.opened ∧ w.rres w.ri = some s ∧
      readLine st w = Out.ok s st (advR w)) := by
  unfold readLine
  cases hcom : st.com with
  | none => exact Or.inl rfl
  | some c =>
    cases c with
    | fresh => exact Or.inl rfl
    | opened =>
      cases hr : w.rres w.ri with
      | none => simp [hr]
      | some s => exact Or.inr ⟨s, rfl, rfl, rfl⟩

theorem storeBlock_cases (sfx : String) (toks : List String) (st : St) (w : Wire) :
    (∃ res e, storeFields st.results toks (blockFields sfx) = (res, some e) ∧
      storeBlock sfx toks st w = Out.err e { st with results := res } w) ∨
    (∃ res, storeFields st.results toks (blockFields sfx) = (res, none) ∧
      storeBlock sfx toks st w = Out.ok () { st with results := res } w) := by
  unfold storeBlock
  rcases h : storeFields st.results toks (blockFields sfx) with ⟨res, e⟩
  cases e with
  | none => exact Or.inr ⟨res, rfl, rfl⟩
  | some e => exact Or.inl ⟨res, e, rfl, rfl⟩

theorem mesPhase_cases (st : St) (w : Wire) :
    (∃ wE evs, mesPhase st w = Out.err Err.transport st wE ∧
      wE.trace = w.trace ++ evs ∧ flagsLe st.remote evs ∧
      wE.rres = w.rres ∧ w.ri ≤ wE.ri ∧ wE.ri ≤ w.ri + 2) ∨
    (∃ s₀ s₁, w.rres w.ri = some s₀ ∧ w.rres (w.ri + 1) = some s₁ ∧
      mesPhase st w = Out.ok () st (advR (advR (advW w "MES,1" st.remote)))) := by
  unfold mesPhase
  rcases writeCmd_cases "MES,1" st w with h | ⟨hcom, hw, h⟩
  · rw [h]
    exact Or.inl ⟨w, [], by simp, by simp, flagsLe_nil _, rfl, le_refl _, by omega⟩
  rw [h]
  rcases readLine_cases st (advW w "MES,1" st.remote) with h₂ | ⟨s₀, hcom₂, hr₂, h₂⟩
  · rw [Out.bind_ok, h₂]
    exact Or.inl ⟨advW w "MES,1" st.remote, [Ev.wr "MES,1" st.remote], by simp,
      by simp, flagsLe_wr _ _, by simp, by simp, by simp⟩
  rw [Out.bind_ok, h₂]
  rcases readLine_cases st (advR (advW w "MES,1" st.remote)) with h₃ | ⟨s₁, hcom₃, hr₃, h₃⟩
  · rw [Out.bind_ok, h₃]
    refine Or.inl ⟨advR (advW w "MES,1" st.remote), [Ev.wr "MES,1" st.remote, Ev.rd], by simp,
      by simp, ?_, by simp, by simp, by simp⟩
    exact flagsLe_cons (flagsLe_rd _)
  rw [Out.bind_ok, h₃, Out.bind_ok]
  simp only [advW_rres, advR_rres, advW_ri, advR_ri] at hr₂ hr₃
  exact Or.inr ⟨s₀, s₁, hr₂, hr₃, rfl⟩

theorem blockPhase_cases (bdr sfx : String) (st : St) (w : Wire) :
    (∃ e res wE evs, blockPhase bdr sfx st w = Out.err e { st with results := res } wE ∧
      wE.trace = w.trace ++ evs ∧ flagsLe st.remote evs ∧ w.ri ≤ wE.ri ∧
      ((res = st.results ∧ wE.ri ≤ w.ri + 1) ∨ wE.ri = w.ri + 2)) ∨
    (∃ line res, w.rres (w.ri + 1) = some line ∧
      storeFields st.results (pySplit ',' line) (blockFields sfx) = (res, none) ∧
      blockPhase bdr sfx st w = Out.ok () { st with results := res }
        (advR (advW (advR (advW w bdr st.remote)) "&" st.remote))) := by
  unfold blockPhase
  rcases writeCmd_cases bdr st w with h₁ | ⟨hcom₁, hw₁, h₁⟩
  · rw [h₁, Out.bind_err]
    exact Or.inl ⟨Err.transport, st.results, w, [], rfl, by simp, flagsLe_nil _,
      le_refl _, Or.inl ⟨rfl, by omega⟩⟩
  rw [h₁, Out.bind_ok]
  rcases readLine_cases st (advW w bdr st.remote) with h₂ | ⟨ack, hcom₂, hr₂, h₂⟩
  · rw [h₂, Out.bind_err]
    exact Or.inl ⟨Err.transport, st.results, advW w bdr st.remote, [Ev.wr bdr st.remote],
      rfl, by simp, flagsLe_wr _ _, by simp, Or.inl ⟨rfl, by simp⟩⟩
  rw [h₂, Out.bind_ok]
  rcases writeCmd_cases "&" st (advR (advW w bdr st.remote)) with h₃ | ⟨hcom₃, hw₃, h₃⟩
  · rw [h₃, Out.bind_err]
    exact Or.inl ⟨Err.transport, st.results, advR (advW w bdr st.remote),
      [Ev.wr bdr st.remote, Ev.rd], rfl, by simp,
      flagsLe_cons (flagsLe_rd _), by simp, Or.inl ⟨rfl, by simp⟩⟩
  rw [h₃, Out.bind_ok]
  rcases readLine_cases st (advW (advR (advW w bdr st.remote)) "&" st.remote) with
    h₄ | ⟨line, hcom₄, hr₄, h₄⟩
  · rw [h₄, Out.bind_err]
    exact Or.inl ⟨Err.transport, st.results, advW (advR (advW w bdr st.remote)) "&" st.remote,
      [Ev.wr bdr st.remote, Ev.rd, Ev.wr "&" st.remote], rfl, by simp,
      flagsLe_cons (flagsLe_rd_cons (flagsLe_wr _ _)), by simp, Or.inl ⟨rfl, by simp⟩⟩
  rw [h₄, Out.bind_ok]
  simp only [advW_rres, advR_rres, advW_ri, advR_ri] at hr₄
  rcases storeBlock_cases sfx (pySplit ',' line) st
      (advR (advW (advR (advW w bdr st.remote)) "&" st.remote)) with
    ⟨res, e, hsf, hsb⟩ | ⟨res, hsf, hsb⟩
  · rw [hsb]
    exact Or.inl ⟨e, res, advR (advW (advR (advW w bdr st.remote)) "&" st.remote),
      [Ev.wr bdr st.remote, Ev.rd, Ev.wr "&" st.remote, Ev.rd], rfl, by simp,
      flagsLe_cons (flagsLe_rd_cons (flagsLe_cons (flagsLe_rd_cons (flagsLe_nil _)))),
      by simp only [advR_ri, advW_ri]; try omega,
      Or.inr (by simp only [advR_ri, advW_ri]; try omega)⟩
  · rw [hsb]
    exact Or.inr ⟨line, res, hr₄, hsf, rfl⟩

theorem blockPhase_ri_mono (bdr sfx : String) (st : St) (w : Wire) :
    w.ri ≤ (blockPhase bdr sfx st w).wOf.ri := by
  rcases blockPhase_cases bdr sfx st w with
    ⟨e, res, wE, evs, heq, _, _, hge, _⟩ | ⟨line, res, _, _, heq⟩
  · rw [heq]; exact hge
  · rw [heq]; simp only [Out.wOf_ok, advR_ri, advW_ri]; try omega

theorem specLoop_stOf (n : ℕ) (acc : List Dec) (st : St) (w : Wire) :
    (specLoop n acc st w).stOf = st := by
  induction n generalizing acc w with
  | zero => rfl
  | succ n ih =>
    show (Out.bind (writeCmd "&" st w) _).stOf = st
    rcases writeCmd_cases "&" st w with h₁ | ⟨hcom₁, hw₁, h₁⟩
    · rw [h₁, Out.bind_err, Out.stOf_err]
    rw [h₁, Out.bind_ok]
    rcases readLine_cases st (advW w "&" st.remote) with h₂ | ⟨s, hcom₂, hr₂, h₂⟩
    · rw [h₂, Out.bind_err, Out.stOf_err]
    rw [h₂, Out.bind_ok]
    cases hp : parseFloats (pySplit ',' s) with
    | none => simp
    | some qs => simpa using ih (acc ++ qs) (advR (advW w "&" st.remote))

theorem specLoop_ri_mono (n : ℕ) (acc : List Dec) (st : St) (w : Wire) :
    w.ri ≤ (specLoop n acc st w).wOf.ri := by
  induction n generalizing acc w with
  | zero => exact le_refl _
  | succ n ih =>
    show w.ri ≤ (Out.bind (writeCmd "&" st w) _).wOf.ri
    rcases writeCmd_cases "&" st w with h₁ | ⟨hcom₁, hw₁, h₁⟩
    · rw [h₁, Out.bind_err, Out.wOf_err]
    rw [h₁, Out.bind_ok]
    rcases readLine_cases st (advW w "&" st.remote) with h₂ | ⟨s, hcom₂, hr₂, h₂⟩
    · rw [h₂, Out.bind_err, Out.wOf_err]; simp
    rw [h₂, Out.bind_ok]
    cases hp : parseFloats (pySplit ',' s) with
    | none =>
      show w.ri ≤ (Out.err Err.parse st (advR (advW w "&" st.remote)) : Out (List Dec)).wOf.ri
      simp
    | some qs =>
      have h1 := ih (acc ++ qs) (advR (advW w "&" st.remote))
      simp only [advR_ri, advW_ri] at h1
      exact le_trans (by omega : w.ri ≤ w.ri + 1) h1

theorem specLoop_trace (n : ℕ) (acc : List Dec) (st : St) (w : Wire) :
    ∃ evs, (specLoop n acc st w).wOf.trace = w.trace ++ evs ∧ flagsLe st.remote evs := by
  induction n generalizing acc w with
  | zero => exact ⟨[], by simp [specLoop], flagsLe_nil _⟩
  | succ n ih =>
    show ∃ evs, (Out.bind (writeCmd "&" st w) _).wOf.trace = w.trace ++ evs ∧ _
    rcases writeCmd_cases "&" st w with h₁ | ⟨hcom₁, hw₁, h₁⟩
    · rw [h₁, Out.bind_err, Out.wOf_err]
      exact ⟨[], by simp, flagsLe_nil _⟩
    rw [h₁, Out.bind_ok]
    rcases readLine_cases st (advW w "&" st.remote) with h₂ | ⟨s, hcom₂, hr₂, h₂⟩
    · rw [h₂, Out.bind_err, Out.wOf_err]
      exact ⟨[Ev.wr "&" st.remote], by simp, flagsLe_wr _ _⟩
    rw [h₂, Out.bind_ok]
    cases hp : parseFloats (pySplit ',' s) with
    | none =>
      exact ⟨[Ev.wr "&" st.remote, Ev.rd], by simp, flagsLe_cons (flagsLe_rd _)⟩
    | some qs =>
      obtain ⟨evs, htr, hfl⟩ := ih (acc ++ qs) (advR (advW w "&" st.remote))
      refine ⟨Ev.wr "&" st.remote :: Ev.rd :: evs, ?_, flagsLe_cons (flagsLe_rd_cons hfl)⟩
      show (specLoop n (acc ++ qs) st (advR (advW w "&" st.remote))).wOf.trace = _
      rw [htr]
      simp

theorem parseFloats_append {a b : List String} {qa qb : List Dec}
    (ha : parseFloats a = some qa) (hb : parseFloats b = some qb) :
    parseFloats (a ++ b) = some (qa ++ qb) := by
  induction a generalizing qa with
  | nil =>
    rw [show parseFloats [] = some [] from rfl] at ha
    injection ha with ha
    subst ha
    simpa using hb
  | cons s rest ih =>
    rw [List.cons_append]
    show (match specTok s with
      | none => none
      | some q =>
          match parseFloats (rest ++ b) with
          | none => none
          | some qs => some (q :: qs)) = some (qa ++ qb)
    have ha' : (match specTok s with
      | none => none
      | some q =>
          match parseFloats rest with
          | none => none
          | some qs => some (q :: qs)) = some qa := ha
    cases hs : specTok s with
    | none => rw [hs] at ha'; exact Option.noConfusion ha'
    | some q =>
      rw [hs] at ha'
      cases hrest : parseFloats rest with
      | none => rw [hrest] at ha'; exact Option.noConfusion ha'
      | some qs =>
        rw [hrest] at ha'
        injection ha' with ha'
        subst ha'
        rw [ih hrest]
        simp

theorem specLoop_ok : ∀ (n : ℕ) (acc ints : List Dec) (st st' : St) (w w' : Wire),
    specLoop n acc st w = Out.ok ints st' w' →
    st' = st ∧ w'.rres = w.rres ∧ w'.wres = w.wres ∧ w'.ri = w.ri + n ∧ w'.wi = w.wi + n ∧
    w'.trace = w.trace ++ (List.replicate n [Ev.wr "&" st.remote, Ev.rd]).flatten ∧
    ∃ (lines : List String) (qs : List Dec), lines.length = n ∧
      (∀ j, j < n → w.rres (w.ri + j) = some (lines.getD j "")) ∧
      parseFloats ((lines.map (pySplit ',')).flatten) = some qs ∧ ints = acc ++ qs := by
  intro n
  induction n with
  | zero =>
    intro acc ints st st' w w' h
    rw [show specLoop 0 acc st w = Out.ok acc st w from rfl] at h
    injection h with h₁ h₂ h₃
    subst h₁; subst h₂; subst h₃
    refine ⟨rfl, rfl, rfl, rfl, rfl, by simp, [], [], rfl, ?_, rfl, by simp⟩
    intro j hj
    omega
  | succ n ih =>
    intro acc ints st st' w w' h
    rw [show specLoop (n + 1) acc st w = Out.bind (writeCmd "&" st w) (fun _ st w =>
      Out.bind (readLine st w) fun line st w =>
        match parseFloats (pySplit ',' line) with
        | some qs => specLoop n (acc ++ qs) st w
        | none => Out.err Err.parse st w) from rfl] at h
    rcases writeCmd_cases "&" st w with h₁ | ⟨hcom₁, hw₁, h₁⟩
    · rw [h₁, Out.bind_err] at h; exact Out.noConfusion h
    rw [h₁, Out.bind_ok] at h
    rcases readLine_cases st (advW w "&" st.remote) with h₂ | ⟨s, hcom₂, hr₂, h₂⟩
    · rw [h₂, Out.bind_err] at h; exact Out.noConfusion h
    rw [h₂, Out.bind_ok] at h
    cases hp : parseFloats (pySplit ',' s) with
    | none => rw [hp] at h; exact Out.noConfusion h
    | some qs₀ =>
      rw [hp] at h
      obtain ⟨hst, hrr, hwr, hri, hwi, htr, lines, qs, hlen, hread, hparse, hints⟩ :=
        ih (acc ++ qs₀) ints st st' (advR (advW w "&" st.remote)) w' h
      simp only [advW_rres, advR_rres, advW_wres, advR_wres, advW_ri, advR_ri,
        advW_wi, advR_wi, advW_trace, advR_trace] at hrr hwr hri hwi htr hread
      simp only [advW_ri] at hr₂
      refine ⟨hst, hrr, hwr, by omega, by omega, ?_, s :: lines, qs₀ ++ qs, by simp [hlen],
        ?_, ?_, ?_⟩
      · rw [htr]
        simp [List.replicate_succ]
      · intro j hj
        cases j with
        | zero => simpa using hr₂
        | succ j =>
          have := hread j (by omega)
          rw [show w.ri + (j + 1) = w.ri + 1 + j from by omega]
          simpa using this
      · rw [List.map_cons, List.flatten_cons]
        exact parseFloats_append hp hparse
      · rw [hints, List.append_assoc]

theorem spectralPhase_ri_mono (st : St) (w : Wire) :
    w.ri ≤ (spectralPhase st w).wOf.ri := by
  unfold spectralPhase
  rcases writeCmd_cases "BDR,0,0,0" st w with h₁ | ⟨hcom₁, hw₁, h₁⟩
  · rw [h₁, Out.bind_err, Out.wOf_err]
  rw [h₁, Out.bind_ok]
  rcases readLine_cases st (advW w "BDR,0,0,0" st.remote) with h₂ | ⟨ack, hcom₂, hr₂, h₂⟩
  · rw [h₂, Out.bind_err, Out.wOf_err]; simp
  rw [h₂, Out.bind_ok]
  have hm := specLoop_ri_mono 15 [] st (advR (advW w "BDR,0,0,0" st.remote))
  rcases hsl : specLoop 15 [] st (advR (advW w "BDR,0,0,0" st.remote)) with
    ⟨ints, st₂, w₂⟩ | ⟨e, st₂, w₂⟩
  · rw [hsl, Out.wOf_ok] at hm
    simp only [Out.bind_ok, Out.wOf_ok, advR_ri, advW_ri] at hm ⊢
    omega
  · rw [hsl, Out.wOf_err] at hm
    simp only [Out.bind_err, Out.wOf_err, advR_ri, advW_ri] at hm ⊢
    omega

theorem spectralPhase_trace (st : St) (w : Wire) :
    ∃ evs, (spectralPhase st w).wOf.trace = w.trace ++ evs ∧ flagsLe st.remote evs := by
  unfold spectralPhase
  rcases writeCmd_cases "BDR,0,0,0" st w with h₁ | ⟨hcom₁, hw₁, h₁⟩
  · rw [h₁, Out.bind_err, Out.wOf_err]
    exact ⟨[], by simp, flagsLe_nil _⟩
  rw [h₁, Out.bind_ok]
  rcases readLine_cases st (advW w "BDR,0,0,0" st.remote) with h₂ | ⟨ack, hcom₂, hr₂, h₂⟩
  · rw [h₂, Out.bind_err, Out.wOf_err]
    exact ⟨[Ev.wr "BDR,0,0,0" st.remote], by simp, flagsLe_wr _ _⟩
  rw [h₂, Out.bind_ok]
  obtain ⟨evs, htr, hfl⟩ := specLoop_trace 15 [] st (advR (advW w "BDR,0,0,0" st.remote))
  rcases hsl : specLoop 15 [] st (advR (advW w "BDR,0,0,0" st.remote)) with
    ⟨ints, st₂, w₂⟩ | ⟨e, st₂, w₂⟩
  · rw [hsl, Out.wOf_ok] at htr
    simp only [advR_trace, advW_trace] at htr
    refine ⟨Ev.wr "BDR,0,0,0" st.remote :: Ev.rd :: evs, ?_,
      flagsLe_cons (flagsLe_rd_cons hfl)⟩
    simp only [Out.bind_ok, Out.wOf_ok]
    rw [htr]
    simp
  · rw [hsl, Out.wOf_err] at htr
    simp only [advR_trace, advW_trace] at htr
    refine ⟨Ev.wr "BDR,0,0,0" st.remote :: Ev.rd :: evs, ?_,
      flagsLe_cons (flagsLe_rd_cons hfl)⟩
    simp only [Out.bind_err, Out.wOf_err]
    rw [htr]
    simp

theorem spectralPhase_ok (st st' : St) (w w' : Wire)
    (h : spectralPhase st w = Out.ok () st' w') :
    ∃ (lines : List String) (ints : List Dec),
      lines.length = 15 ∧
      (∀ j, j < 15 → w.rres (w.ri + 1 + j) = some (lines.getD j "")) ∧
      parseFloats ((lines.map (pySplit ',')).flatten) = some ints ∧
      st' = { st with results := dictSet st.results "spectrum" (Value.spec (spectrumPairs 380 ints)) } ∧
      w'.ri = w.ri + 16 ∧ w'.wi = w.wi + 16 ∧
      w'.trace = w.trace ++ Ev.wr "BDR,0,0,0" st.remote :: Ev.rd ::
        (List.replicate 15 [Ev.wr "&" st.remote, Ev.rd]).flatten := by
  unfold spectralPhase at h
  rcases writeCmd_cases "BDR,0,0,0" st w with h₁ | ⟨hcom₁, hw₁, h₁⟩
  · rw [h₁, Out.bind_err] at h; exact Out.noConfusion h
  rw [h₁, Out.bind_ok] at h
  rcases readLine_cases st (advW w "BDR,0,0,0" st.remote) with h₂ | ⟨ack, hcom₂, hr₂, h₂⟩
  · rw [h₂, Out.bind_err] at h; exact Out.noConfusion h
  rw [h₂, Out.bind_ok] at h
  rcases hsl : specLoop 15 [] st (advR (advW w "BDR,0,0,0" st.remote)) with
    ⟨ints, st₂, w₂⟩ | ⟨e, st₂, w₂⟩
  · rw [hsl] at h
    simp only [Out.bind_ok] at h
    obtain ⟨hst, hrr, hwr, hri, hwi, htr, lines, qs, hlen, hread, hparse, hints⟩ :=
      specLoop_ok 15 [] ints st st₂ (advR (advW w "BDR,0,0,0" st.remote)) w₂ hsl
    injection h with h₁' h₂' h₃'
    subst h₂'; subst h₃'
    subst hst
    simp only [advW_rres, advR_rres, advW_ri, advR_ri, advW_wi, advR_wi,
      advW_trace, advR_trace] at hrr hri hwi htr hread
    rw [List.nil_append] at hints
    subst hints
    refine ⟨lines, ints, hlen, ?_, hparse, rfl, by omega, by omega, by rw [htr]; simp⟩
    intro j hj
    exact hread j hj
  · rw [hsl, Out.bind_err] at h; exact Out.noConfusion h

theorem dictGet_dictSet_self (m : Results) (k : String) (v : Value) :
    dictGet (dictSet m k v) k = some v := by
  induction m with
  | nil => simp [dictSet, dictGet]
  | cons p rest ih =>
    obtain ⟨k₁, v₁⟩ := p
    by_cases h : k₁ = k
    · subst h
      simp [dictSet, dictGet]
    · simp [dictSet, dictGet, h, ih]

theorem dictGet_dictSet_ne (m : Results) (k k' : String) (v : Value) (h : k' ≠ k) :
    dictGet (dictSet m k v) k' = dictGet m k' := by
  induction m with
  | nil => simp [dictSet, dictGet, Ne.symm h]
  | cons p rest ih =>
    obtain ⟨k₁, v₁⟩ := p
    by_cases h₁ : k₁ = k
    · subst h₁
      simp [dictSet, dictGet, Ne.symm h]
    · simp [dictSet, dictGet, h₁, ih]

theorem insKey_cons (k₁ : String) (ks : List String) (k : String) (h : k₁ ≠ k) :
    insKey (k₁ :: ks) k = k₁ :: insKey ks k := by
  by_cases hk : k ∈ ks
  · rw [insKey, insKey, if_pos hk, if_pos (List.mem_cons_of_mem k₁ hk)]
  · have hk' : k ∉ k₁ :: ks := by
      intro hmem
      rcases List.mem_cons.mp hmem with h' | h'
      · exact h h'.symm
      · exact hk h'
    rw [insKey, insKey, if_neg hk, if_neg hk']
    simp

theorem keysOf_dictSet (m : Results) (k : String) (v : Value) :
    keysOf (dictSet m k v) = insKey (keysOf m) k := by
  induction m with
  | nil => simp [dictSet, keysOf, insKey]
  | cons p rest ih =>
    obtain ⟨k₁, v₁⟩ := p
    by_cases h : k₁ = k
    · subst h
      have hset : dictSet ((k₁, v₁) :: rest) k₁ v = (k₁, v) :: rest := by
        simp [dictSet]
      rw [hset]
      show k₁ :: List.map Prod.fst rest = insKey (k₁ :: List.map Prod.fst rest) k₁
      rw [insKey, if_pos (List.mem_cons_self _ _)]
    · simp only [dictSet, if_neg h, keysOf, List.map_cons]
      rw [show List.map Prod.fst (dictSet rest k v) = insKey (List.map Prod.fst rest) k from ih]
      exact (insKey_cons k₁ _ k h).symm

theorem storeFields_cons_ok {res res' : Results} {toks : List String}
    {f : String × ℕ × FieldKind} {fs : List (String × ℕ × FieldKind)}
    (h : storeFields res toks (f :: fs) = (res', none)) :
    ∃ res₁, storeOne res toks f = (res₁, none) ∧ storeFields res₁ toks fs = (res', none) := by
  unfold storeFields at h
  rcases hso : storeOne res toks f with ⟨res₁, e⟩
  rw [hso] at h
  cases e with
  | none => exact ⟨res₁, rfl, h⟩
  | some e =>
    have h' : (res₁, some e) = (res', (none : Option Err)) := h
    injection h' with h₁ h₂
    exact Option.noConfusion h₂

theorem storeOne_flt_ok {res res₁ : Results} {toks : List String} {k : String} {i : ℕ}
    (h : storeOne res toks (k, i, FieldKind.flt) = (res₁, none)) :
    i < toks.length ∧ ∃ q, pyFloat (toks.getD i "") = some q ∧
      res₁ = dictSet res k (Value.num q) := by
  simp only [storeOne] at h
  by_cases hi : i < toks.length
  · rw [if_pos hi] at h
    cases hp : pyFloat (toks.getD i "") with
    | none =>
      rw [hp] at h
      have h' : (res, some Err.parse) = (res₁, (none : Option Err)) := h
      injection h' with h₁ h₂
      exact Option.noConfusion h₂
    | some q =>
      rw [hp] at h
      have h' : (dictSet res k (Value.num q), (none : Option Err)) = (res₁, none) := h
      injection h' with h₁ h₂
      exact ⟨hi, q, rfl, h₁.symm⟩
  · rw [if_neg hi] at h
    have h' : (res, some Err.parse) = (res₁, (none : Option Err)) := h
    injection h' with h₁ h₂
    exact Option.noConfusion h₂

theorem storeOne_raw_ok {res res₁ : Results} {toks : List String} {k : String} {i : ℕ}
    (h : storeOne res toks (k, i, FieldKind.raw) = (res₁, none)) :
    i < toks.length ∧ res₁ = dictSet res k (Value.str (toks.getD i "")) := by
  simp only [storeOne] at h
  by_cases hi : i < toks.length
  · rw [if_pos hi] at h
    have h' : (dictSet res k (Value.str (toks.getD i "")), (none : Option Err)) = (res₁, none) := h
    injection h' with h₁ h₂
    exact ⟨hi, h₁.symm⟩
  · rw [if_neg hi] at h
    have h' : (res, some Err.parse) = (res₁, (none : Option Err)) := h
    injection h' with h₁ h₂
    exact Option.noConfusion h₂

theorem storeOne_get_ne {res res₁ : Results} {toks : List String}
    {f : String × ℕ × FieldKind} {e : Option Err} {k : String}
    (h : storeOne res toks f = (res₁, e)) (hk : f.1 ≠ k) :
    dictGet res₁ k = dictGet res k := by
  obtain ⟨k₁, i, kd⟩ := f
  cases kd with
  | flt =>
    simp only [storeOne] at h
    by_cases hi : i < toks.length
    · rw [if_pos hi] at h
      cases hp : pyFloat (toks.getD i "") with
      | none =>
        rw [hp] at h
        have h' : (res, some Err.parse) = (res₁, e) := h
        injection h' with h₁ h₂
        rw [← h₁]
      | some q =>
        rw [hp] at h
        have h' : (dictSet res k₁ (Value.num q), (none : Option Err)) = (res₁, e) := h
        injection h' with h₁ h₂
        rw [← h₁]
        exact dictGet_dictSet_ne res k₁ k _ (Ne.symm hk)
    · rw [if_neg hi] at h
      have h' : (res, some Err.parse) = (res₁, e) := h
      injection h' with h₁ h₂
      rw [← h₁]
  | raw =>
    simp only [storeOne] at h
    by_cases hi : i < toks.length
    · rw [if_pos hi] at h
      have h' : (dictSet res k₁ (Value.str (toks.getD i "")), (none : Option Err)) = (res₁, e) := h
      injection h' with h₁ h₂
      rw [← h₁]
      exact dictGet_dictSet_ne res k₁ k _ (Ne.symm hk)
    · rw [if_neg hi] at h
      have h' : (res, some Err.parse) = (res₁, e) := h
      injection h' with h₁ h₂
      rw [← h₁]

theorem dictGet_storeFields {fs : List (String × ℕ × FieldKind)} :
    ∀ {res res' : Results} {e : Option Err} {toks : List String} {k : String},
    storeFields res toks fs = (res', e) → (∀ f ∈ fs, f.1 ≠ k) →
    dictGet res' k = dictGet res k := by
  induction fs with
  | nil =>
    intro res res' e toks k h hk
    unfold storeFields at h
    injection h with h₁ h₂
    rw [← h₁]
  | cons f fs ih =>
    intro res res' e toks k h hk
    rcases hso : storeOne res toks f with ⟨res₁, e₁⟩
    have hres₁ : dictGet res₁ k = dictGet res k :=
      storeOne_get_ne hso (hk f (List.mem_cons_self f fs))
    unfold storeFields at h
    rw [hso] at h
    cases e₁ with
    | none =>
      have := ih h (fun g hg => hk g (List.mem_cons_of_mem f hg))
      rw [this, hres₁]
    | some e₁ =>
      have h' : (res₁, some e₁) = (res', e) := h
      injection h' with h₁ h₂
      rw [← h₁]
      exact hres₁

theorem keysOf_storeFields {fs : List (String × ℕ × FieldKind)} :
    ∀ {res res' : Results} {toks : List String},
    storeFields res toks fs = (res', none) →
    keysOf res' = insertKeys (keysOf res) (fs.map (fun f => f.1)) := by
  induction fs with
  | nil =>
    intro res res' toks h
    unfold storeFields at h
    injection h with h₁ h₂
    rw [← h₁]
    rfl
  | cons f fs ih =>
    intro res res' toks h
    obtain ⟨res₁, hso, hrest⟩ := storeFields_cons_ok h
    obtain ⟨k, i, kd⟩ := f
    have hkeys : keysOf res₁ = insKey (keysOf res) k := by
      cases kd with
      | flt =>
        obtain ⟨hi, q, hp, hres₁⟩ := storeOne_flt_ok hso
        rw [hres₁, keysOf_dictSet]
      | raw =>
        obtain ⟨hi, hres₁⟩ := storeOne_raw_ok hso
        rw [hres₁, keysOf_dictSet]
    rw [ih hrest, hkeys]
    rfl

theorem insertKeys_append (ks a b : List String) :
    insertKeys ks (a ++ b) = insertKeys (insertKeys ks a) b := by
  simp [insertKeys, List.foldl_append]

theorem insertKeys_sub : ∀ (l acc : List String), (∀ x ∈ l, x ∈ acc) → insertKeys acc l = acc := by
  intro l
  induction l with
  | nil => intro acc _; rfl
  | cons k rest ih =>
    intro acc h
    show insertKeys (insKey acc k) rest = acc
    rw [insKey, if_pos (h k (List.mem_cons_self k rest))]
    exact ih acc (fun x hx => h x (List.mem_cons_of_mem k hx))

theorem insertKeys_nodup : ∀ (rest acc : List String), (acc ++ rest).Nodup →
    insertKeys acc rest = acc ++ rest := by
  intro rest
  induction rest with
  | nil => intro acc _; simp [insertKeys]
  | cons k rest ih =>
    intro acc h
    have hd := (List.nodup_append.mp h).2.2
    have hk : k ∉ acc := fun hmem => hd hmem (List.mem_cons_self k rest)
    show insertKeys (insKey acc k) rest = acc ++ k :: rest
    rw [insKey, if_neg hk]
    have h' : ((acc ++ [k]) ++ rest).Nodup := by
      rw [List.append_assoc]
      exact h
    rw [ih (acc ++ [k]) h']
    simp

theorem parseFloats_length {ts : List String} :
    ∀ {qs : List Dec}, parseFloats ts = some qs → qs.length = ts.length := by
  induction ts with
  | nil =>
    intro qs h
    rw [show parseFloats [] = some [] from rfl] at h
    injection h with h
    rw [← h]
    rfl
  | cons s rest ih =>
    intro qs h
    unfold parseFloats at h
    cases hs : specTok s with
    | none => rw [hs] at h; exact Option.noConfusion h
    | some q =>
      rw [hs] at h
      cases hr : parseFloats rest with
      | none => rw [hr] at h; exact Option.noConfusion h
      | some qs' =>
        rw [hr] at h
        injection h with h
        rw [← h]
        simp [ih hr]

theorem parseFloats_getD {ts : List String} :
    ∀ {qs : List Dec}, parseFloats ts = some qs →
    ∀ i, i < ts.length → specTok (ts.getD i "") = some (qs.getD i ⟨0, 0⟩) := by
  induction ts with
  | nil =>
    intro qs h i hi
    exact absurd hi (by simp)
  | cons s rest ih =>
    intro qs h i hi
    unfold parseFloats at h
    cases hs : specTok s with
    | none => rw [hs] at h; exact Option.noConfusion h
    | some q =>
      rw [hs] at h
      cases hr : parseFloats rest with
      | none => rw [hr] at h; exact Option.noConfusion h
      | some qs' =>
        rw [hr] at h
        injection h with h
        rw [← h]
        cases i with
        | zero => simpa using hs
        | succ i =>
          simp only [List.getD_cons_succ]
          exact ih hr i (by simpa using hi)

theorem flatten_map_split_length : ∀ (lines : List String),
    (∀ l ∈ lines, (pySplit ',' l).length = 10) →
    ((lines.map (pySplit ',')).flatten).length = 10 * lines.length := by
  intro lines
  induction lines with
  | nil => intro _; rfl
  | cons l rest ih =>
    intro h
    rw [List.map_cons, List.flatten_cons, List.length_append,
      h l (List.mem_cons_self l rest), ih (fun x hx => h x (List.mem_cons_of_mem l hx))]
    simp [List.length_cons]
    ring

theorem spectrumPairs_length (w0 : ℕ) (l : List Dec) :
    (spectrumPairs w0 l).length = l.length := by
  induction l generalizing w0 with
  | nil => rfl
  | cons q rest ih => simp [spectrumPairs, ih]

theorem spectrumPairs_getD (l : List Dec) : ∀ (w0 i : ℕ), i < l.length →
    (spectrumPairs w0 l).getD i (⟨0, 0⟩, ⟨0, 0⟩) = (Dec.ofNat (w0 + i), l.getD i ⟨0, 0⟩) := by
  induction l with
  | nil =>
    intro w0 i hi
    exact absurd hi (by simp)
  | cons q rest ih =>
    intro w0 i hi
    cases i with
    | zero => simp [spectrumPairs]
    | succ i =>
      show (spectrumPairs (w0 + 1) rest).getD i _ = _
      rw [ih (w0 + 1) i (by simpa using hi)]
      rw [show w0 + 1 + i = w0 + (i + 1) from by omega]
      rfl

theorem set_remote_noop (st : St) (w : Wire) : set_remote st.remote st w = Out.ok () st w := by
  unfold set_remote
  cases hr : st.remote <;> simp

theorem set_remote_true_cases (st : St) (w : Wire) (hr : st.remote = false) :
    (∃ wE evs, set_remote true st w = Out.err Err.transport st wE ∧
      wE.trace = w.trace ++ evs ∧ (∀ c b, Ev.wr c b ∈ evs → c = "RMT,1" ∧ b = false) ∧
      w.ri ≤ wE.ri ∧ wE.ri ≤ w.ri + 1) ∨
    (∃ s, w.wres w.wi = true ∧ w.rres w.ri = some s ∧
      set_remote true st w = Out.ok () { st with remote := true }
        (advR (advW w "RMT,1" false))) := by
  unfold set_remote
  rw [if_pos rfl, if_neg (by rw [hr]; exact Bool.false_ne_true)]
  rcases writeCmd_cases "RMT,1" st w with h₁ | ⟨hcom, hw, h₁⟩
  · rw [h₁, Out.bind_err]
    exact Or.inl ⟨w, [], rfl, by simp, fun c b hb => absurd hb (List.not_mem_nil _),
      le_refl _, by omega⟩
  rw [h₁, Out.bind_ok, hr]
  rcases readLine_cases st (advW w "RMT,1" false) with h₂ | ⟨s, hcom₂, hr₂, h₂⟩
  · rw [h₂, Out.bind_err]
    refine Or.inl ⟨advW w "RMT,1" false, [Ev.wr "RMT,1" false], rfl, by simp, ?_, by simp, by simp⟩
    intro c b hb
    rw [List.mem_singleton] at hb
    injection hb with hb₁ hb₂
    exact ⟨hb₁, hb₂⟩
  rw [h₂, Out.bind_ok]
  simp only [advW_rres, advW_ri] at hr₂
  exact Or.inr ⟨s, hw, hr₂, rfl⟩

theorem set_remote_false_cases (st : St) (w : Wire) (hr : st.remote = true) :
    set_remote false st w = Out.err Err.transport st w ∨
    (st.com = some ComHandle.opened ∧ w.wres w.wi = true ∧
      set_remote false st w = Out.ok ()
        { st with remote := false, com := some ComHandle.fresh } (advW w "RMT,0" true)) := by
  unfold set_remote
  rw [if_neg (by exact Bool.false_ne_true), if_pos hr]
  rcases writeCmd_cases "RMT,0" st w with h₁ | ⟨hcom, hw, h₁⟩
  · rw [h₁, Out.bind_err]
    exact Or.inl rfl
  · rw [h₁, Out.bind_ok, hr]
    exact Or.inr ⟨hcom, hw, rfl⟩

theorem measure_remote_on (st : St) (w : Wire) (hr : st.remote = true) :
    measure st w = measureMain st w := by
  unfold measure ensure
  rw [if_pos hr, Out.bind_ok]

theorem measure_remote_off (st : St) (w : Wire) (hr : st.remote = false) :
    measure st w = Out.bind (set_remote true st w) fun _ st w => measureMain st w := by
  unfold measure ensure
  rw [if_neg (by rw [hr]; exact Bool.false_ne_true)]

theorem measureMain_ok (st st' : St) (w w' : Wire) (hr : st.remote = true)
    (h : measureMain st w = Out.ok () st' w') :
    ∃ (line2 line10 : String) (lines : List String) (res2 res10 : Results) (ints : List Dec),
      w.rres (w.ri + 3) = some line2 ∧
      w.rres (w.ri + 5) = some line10 ∧
      lines.length = 15 ∧
      (∀ j, j < 15 → w.rres (w.ri + 7 + j) = some (lines.getD j "")) ∧
      storeFields st.results (pySplit ',' line2) (blockFields "2") = (res2, none) ∧
      storeFields res2 (pySplit ',' line10) (blockFields "10") = (res10, none) ∧
      parseFloats ((lines.map (pySplit ',')).flatten) = some ints ∧
      st' = { st with results := dictSet res10 "spectrum" (Value.spec (spectrumPairs 380 ints)) } ∧
      w'.ri = w.ri + 22 ∧ w'.wi = w.wi + 21 ∧ w'.trace = w.trace ++ measEvs := by
  unfold measureMain at h
  rcases mesPhase_cases st w with ⟨wE, evs, hE, -, -, -, -, -⟩ | ⟨s₀, s₁, hr₀, hr₁, hok₁⟩
  · rw [hE, Out.bind_err] at h
    exact Out.noConfusion h
  rw [hok₁, Out.bind_ok] at h
  rcases blockPhase_cases "BDR,1,0,0" "2" st (advR (advR (advW w "MES,1" st.remote))) with
    ⟨e₂, resE₂, wE₂, evs₂, hE₂, -, -, -, -⟩ | ⟨line2, res2, hline2, hsf2, hok₂⟩
  · rw [hE₂, Out.bind_err] at h
    exact Out.noConfusion h
  rw [hok₂, Out.bind_ok] at h
  rcases blockPhase_cases "BDR,1,1,0" "10" { st with results := res2 }
      (advR (advW (advR (advW (advR (advR (advW w "MES,1" st.remote)))
        "BDR,1,0,0" st.remote)) "&" st.remote)) with
    ⟨e₃, resE₃, wE₃, evs₃, hE₃, -, -, -, -⟩ | ⟨line10, res10, hline10, hsf10, hok₃⟩
  · rw [hE₃, Out.bind_err] at h
    exact Out.noConfusion h
  rw [hok₃, Out.bind_ok] at h
  obtain ⟨lines, ints, hlen, hread, hparse, hst', hri', hwi', htr'⟩ :=
    spectralPhase_ok _ _ _ _ h
  simp only [advW_rres, advR_rres, advW_ri, advR_ri] at hline2 hline10 hread
  refine ⟨line2, line10, lines, res2, res10, ints, ?_, ?_, hlen, ?_, hsf2, hsf10, hparse,
    ?_, ?_, ?_, ?_⟩
  · rw [show w.ri + 1 + 1 + 1 = w.ri + 3 from by omega] at hline2
    exact hline2
  · rw [show w.ri + 1 + 1 + 1 + 1 + 1 = w.ri + 5 from by omega] at hline10
    exact hline10
  · intro j hj
    have hj' := hread j hj
    rw [show w.ri + 1 + 1 + 1 + 1 + 1 + 1 + 1 + j = w.ri + 7 + j from by omega] at hj'
    exact hj'
  · exact hst'
  · simp only [advW_ri, advR_ri] at hri'
    omega
  · simp only [advW_wi, advR_wi] at hwi'
    omega
  · simp only [advW_trace, advR_trace, hr] at htr'
    rw [htr']
    simp [measEvs]

theorem storeFields_block2 {res res' : Results} {toks : List String}
    (h : storeFields res toks (blockFields "2") = (res', none)) :
    (∀ i, i < 9 → ∃ q, pyFloat (toks.getD i "") = some q ∧
      dictGet res' ((floatKeys "2").getD i "") = some (Value.num q)) ∧
    dictGet res' "T2" = some (Value.str (toks.getD 9 "")) ∧
    dictGet res' "Duv2" = some (Value.str (toks.getD 8 "")) := by
  rw [show blockFields "2" = [("Le2", 0, FieldKind.flt), ("Lv2", 1, FieldKind.flt),
    ("X2", 2, FieldKind.flt), ("Y2", 3, FieldKind.flt), ("Z2", 4, FieldKind.flt),
    ("x2", 5, FieldKind.flt), ("y2", 6, FieldKind.flt), ("u2", 7, FieldKind.flt),
    ("v2", 8, FieldKind.flt), ("T2", 9, FieldKind.raw), ("Duv2", 8, FieldKind.raw)]
    from by decide] at h
  obtain ⟨r1, hs1, h⟩ := storeFields_cons_ok h
  obtain ⟨r2, hs2, h⟩ := storeFields_cons_ok h
  obtain ⟨r3, hs3, h⟩ := storeFields_cons_ok h
  obtain ⟨r4, hs4, h⟩ := storeFields_cons_ok h
  obtain ⟨r5, hs5, h⟩ := storeFields_cons_ok h
  obtain ⟨r6, hs6, h⟩ := storeFields_cons_ok h
  obtain ⟨r7, hs7, h⟩ := storeFields_cons_ok h
  obtain ⟨r8, hs8, h⟩ := storeFields_cons_ok h
  obtain ⟨r9, hs9, h⟩ := storeFields_cons_ok h
  obtain ⟨r10, hs10, h⟩ := storeFields_cons_ok h
  obtain ⟨r11, hs11, h⟩ := storeFields_cons_ok h
  obtain ⟨hi1, q1, hp1, he1⟩ := storeOne_flt_ok hs1
  obtain ⟨hi2, q2, hp2, he2⟩ := storeOne_flt_ok hs2
  obtain ⟨hi3, q3, hp3, he3⟩ := storeOne_flt_ok hs3
  obtain ⟨hi4, q4, hp4, he4⟩ := storeOne_flt_ok hs4
  obtain ⟨hi5, q5, hp5, he5⟩ := storeOne_flt_ok hs5
  obtain ⟨hi6, q6, hp6, he6⟩ := storeOne_flt_ok hs6
  obtain ⟨hi7, q7, hp7, he7⟩ := storeOne_flt_ok hs7
  obtain ⟨hi8, q8, hp8, he8⟩ := storeOne_flt_ok hs8
  obtain ⟨hi9, q9, hp9, he9⟩ := storeOne_flt_ok hs9
  obtain ⟨hi10, he10⟩ := storeOne_raw_ok hs10
  obtain ⟨hi11, he11⟩ := storeOne_raw_ok hs11
  rw [show storeFields r11 toks [] = (r11, none) from rfl] at h
  injection h with h₁ h₂
  subst h₁
  subst he1; subst he2; subst he3; subst he4; subst he5; subst he6
  subst he7; subst he8; subst he9; subst he10; subst he11
  refine ⟨?_, ?_, ?_⟩
  · intro i hi
    interval_cases i
    · exact ⟨q1, hp1, by simp [floatKeys, dictGet_dictSet_self, dictGet_dictSet_ne]⟩
    · exact ⟨q2, hp2, by simp [floatKeys, dictGet_dictSet_self, dictGet_dictSet_ne]⟩
    · exact ⟨q3, hp3, by simp [floatKeys, dictGet_dictSet_self, dictGet_dictSet_ne]⟩
    · exact ⟨q4, hp4, by simp [floatKeys, dictGet_dictSet_self, dictGet_dictSet_ne]⟩
    · exact ⟨q5, hp5, by simp [floatKeys, dictGet_dictSet_self, dictGet_dictSet_ne]⟩
    · exact ⟨q6, hp6, by simp [floatKeys, dictGet_dictSet_self, dictGet_dictSet_ne]⟩
    · exact ⟨q7, hp7, by simp [floatKeys, dictGet_dictSet_self, dictGet_dictSet_ne]⟩
    · exact ⟨q8, hp8, by simp [floatKeys, dictGet_dictSet_self, dictGet_dictSet_ne]⟩
    · exact ⟨q9, hp9, by simp [floatKeys, dictGet_dictSet_self, dictGet_dictSet_ne]⟩
  · simp [dictGet_dictSet_self, dictGet_dictSet_ne]
  · simp [dictGet_dictSet_self, dictGet_dictSet_ne]

theorem storeFields_block10 {res res' : Results} {toks : List String}
    (h : storeFields res toks (blockFields "10") = (res', none)) :
    (∀ i, i < 9 → ∃ q, pyFloat (toks.getD i "") = some q ∧
      dictGet res' ((floatKeys "10").getD i "") = some (Value.num q)) ∧
    dictGet res' "T10" = some (Value.str (toks.getD 9 "")) ∧
    dictGet res' "Duv10" = some (Value.str (toks.getD 8 "")) := by
  rw [show blockFields "10" = [("Le10", 0, FieldKind.flt), ("Lv10", 1, FieldKind.flt),
    ("X10", 2, FieldKind.flt), ("Y10", 3, FieldKind.flt), ("Z10", 4, FieldKind.flt),
    ("x10", 5, FieldKind.flt), ("y10", 6, FieldKind.flt), ("u10", 7, FieldKind.flt),
    ("v10", 8, FieldKind.flt), ("T10", 9, FieldKind.raw), ("Duv10", 8, FieldKind.raw)]
    from by decide] at h
  obtain ⟨r1, hs1, h⟩ := storeFields_cons_ok h
  obtain ⟨r2, hs2, h⟩ := storeFields_cons_ok h
  obtain ⟨r3, hs3, h⟩ := storeFields_cons_ok h
  obtain ⟨r4, hs4, h⟩ := storeFields_cons_ok h
  obtain ⟨r5, hs5, h⟩ := storeFields_cons_ok h
  obtain ⟨r6, hs6, h⟩ := storeFields_cons_ok h
  obtain ⟨r7, hs7, h⟩ := storeFields_cons_ok h
  obtain ⟨r8, hs8, h⟩ := storeFields_cons_ok h
  obtain ⟨r9, hs9, h⟩ := storeFields_cons_ok h
  obtain ⟨r10, hs10, h⟩ := storeFields_cons_ok h
  obtain ⟨r11, hs11, h⟩ := storeFields_cons_ok h
  obtain ⟨hi1, q1, hp1, he1⟩ := storeOne_flt_ok hs1
  obtain ⟨hi2, q2, hp2, he2⟩ := storeOne_flt_ok hs2
  obtain ⟨hi3, q3, hp3, he3⟩ := storeOne_flt_ok hs3
  obtain ⟨hi4, q4, hp4, he4⟩ := storeOne_flt_ok hs4
  obtain ⟨hi5, q5, hp5, he5⟩ := storeOne_flt_ok hs5
  obtain ⟨hi6, q6, hp6, he6⟩ := storeOne_flt_ok hs6
  obtain ⟨hi7, q7, hp7, he7⟩ := storeOne_flt_ok hs7
  obtain ⟨hi8, q8, hp8, he8⟩ := storeOne_flt_ok hs8
  obtain ⟨hi9, q9, hp9, he9⟩ := storeOne_flt_ok hs9
  obtain ⟨hi10, he10⟩ := storeOne_raw_ok hs10
  obtain ⟨hi11, he11⟩ := storeOne_raw_ok hs11
  rw [show storeFields r11 toks [] = (r11, none) from rfl] at h
  injection h with h₁ h₂
  subst h₁
  subst he1; subst he2; subst he3; subst he4; subst he5; subst he6
  subst he7; subst he8; subst he9; subst he10; subst he11
  refine ⟨?_, ?_, ?_⟩
  · intro i hi
    interval_cases i
    · exact ⟨q1, hp1, by simp [floatKeys, dictGet_dictSet_self, dictGet_dictSet_ne]⟩
    · exact ⟨q2, hp2, by simp [floatKeys, dictGet_dictSet_self, dictGet_dictSet_ne]⟩
    · exact ⟨q3, hp3, by simp [floatKeys, dictGet_dictSet_self, dictGet_dictSet_ne]⟩
    · exact ⟨q4, hp4, by simp [floatKeys, dictGet_dictSet_self, dictGet_dictSet_ne]⟩
    · exact ⟨q5, hp5, by simp [floatKeys, dictGet_dictSet_self, dictGet_dictSet_ne]⟩
    · exact ⟨q6, hp6, by simp [floatKeys, dictGet_dictSet_self, dictGet_dictSet_ne]⟩
    · exact ⟨q7, hp7, by simp [floatKeys, dictGet_dictSet_self, dictGet_dictSet_ne]⟩
    · exact ⟨q8, hp8, by simp [floatKeys, dictGet_dictSet_self, dictGet_dictSet_ne]⟩
    · exact ⟨q9, hp9, by simp [floatKeys, dictGet_dictSet_self, dictGet_dictSet_ne]⟩
  · simp [dictGet_dictSet_self, dictGet_dictSet_ne]
  · simp [dictGet_dictSet_self, dictGet_dictSet_ne]

theorem errOf_none_ok {α : Type} {x : Out α} (h : x.errOf = none) :
    ∃ a st w, x = Out.ok a st w := by
  cases x with
  | ok a st w => exact ⟨a, st, w, rfl⟩
  | err e st w => rw [Out.errOf_err] at h; exact Option.noConfusion h

theorem bind_ri_ge {α β : Type} (x : Out α) (f : α → St → Wire → Out β)
    (hf : ∀ a st₁ w₁, x = Out.ok a st₁ w₁ → w₁.ri ≤ (f a st₁ w₁).wOf.ri) :
    x.wOf.ri ≤ (Out.bind x f).wOf.ri := by
  cases x with
  | ok a st₁ w₁ => exact hf a st₁ w₁ rfl
  | err e st₁ w₁ => exact le_refl _

theorem disconnect_cases (st : St) (w : Wire) :
    (st.remote = true ∧ disconnect st w = Out.err Err.transport st w) ∨
    (∃ (st₁ : St) (w₁ : Wire), disconnect st w = Out.ok () { st₁ with com := none } w₁ ∧
      st₁.remote = false) := by
  by_cases hrem : st.remote = true
  · rcases set_remote_false_cases st w hrem with hE | ⟨hcom, hw, hok⟩
    · refine Or.inl ⟨hrem, ?_⟩
      unfold disconnect
      rw [if_pos hrem, hE, Out.bind_err]
    · refine Or.inr ⟨{ st with remote := false, com := some ComHandle.fresh },
        advW w "RMT,0" true, ?_, rfl⟩
      unfold disconnect
      rw [if_pos hrem, hok, Out.bind_ok]
  · refine Or.inr ⟨st, w, ?_, Bool.not_eq_true st.remote ▸ hrem⟩
    unfold disconnect
    rw [if_neg hrem, Out.bind_ok]

theorem disconnect_ok_state (st : St) (w : Wire) (h : (disconnect st w).errOf = none) :
    (disconnect st w).stOf.com = none ∧ (disconnect st w).stOf.remote = false := by
  rcases disconnect_cases st w with ⟨-, hE⟩ | ⟨st₁, w₁, hok, hst₁⟩
  · rw [hE] at h
    rw [Out.errOf_err] at h
    exact Option.noConfusion h
  · rw [hok, Out.stOf_ok]
    exact ⟨rfl, hst₁⟩

theorem measureMain_trace (st : St) (w : Wire) :
    ∃ evs, (measureMain st w).wOf.trace = w.trace ++ evs ∧ flagsLe st.remote evs := by
  unfold measureMain
  rcases mesPhase_cases st w with ⟨wE, evs₁, hE, htr₁, hfl₁, -, -, -⟩ | ⟨s₀, s₁, hr₀, hr₁, hok₁⟩
  · rw [hE, Out.bind_err, Out.wOf_err]
    exact ⟨evs₁, htr₁, hfl₁⟩
  rw [hok₁, Out.bind_ok]
  rcases blockPhase_cases "BDR,1,0,0" "2" st (advR (advR (advW w "MES,1" st.remote))) with
    ⟨e₂, res₂, wE₂, evs₂, hE₂, htr₂, hfl₂, -, -⟩ | ⟨line2, res2, hline2, hsf2, hok₂⟩
  · rw [hE₂, Out.bind_err, Out.wOf_err]
    refine ⟨Ev.wr "MES,1" st.remote :: Ev.rd :: Ev.rd :: evs₂, ?_,
      flagsLe_cons (flagsLe_rd_cons (flagsLe_rd_cons hfl₂))⟩
    rw [htr₂]
    simp
  rw [hok₂, Out.bind_ok]
  rcases blockPhase_cases "BDR,1,1,0" "10" { st with results := res2 }
      (advR (advW (advR (advW (advR (advR (advW w "MES,1" st.remote)))
        "BDR,1,0,0" st.remote)) "&" st.remote)) with
    ⟨e₃, res₃, wE₃, evs₃, hE₃, htr₃, hfl₃, -, -⟩ | ⟨line10, res10, hline10, hsf10, hok₃⟩
  · rw [hE₃, Out.bind_err, Out.wOf_err]
    refine ⟨Ev.wr "MES,1" st.remote :: Ev.rd :: Ev.rd :: Ev.wr "BDR,1,0,0" st.remote ::
      Ev.rd :: Ev.wr "&" st.remote :: Ev.rd :: evs₃, ?_,
      flagsLe_cons (flagsLe_rd_cons (flagsLe_rd_cons (flagsLe_cons (flagsLe_rd_cons
        (flagsLe_cons (flagsLe_rd_cons hfl₃))))))⟩
    rw [htr₃]
    simp
  rw [hok₃, Out.bind_ok]
  obtain ⟨evs₄, htr₄, hfl₄⟩ := spectralPhase_trace
    { results := res10,
      com := ({ st with results := res2 } : St).com,
      remote := ({ st with results := res2 } : St).remote }
    (advR (advW (advR (advW (advR (advW (advR (advW (advR (advR (advW w "MES,1" st.remote)))
      "BDR,1,0,0" st.remote)) "&" st.remote)) "BDR,1,1,0"
      ({ st with results := res2 } : St).remote)) "&" ({ st with results := res2 } : St).remote))
  refine ⟨Ev.wr "MES,1" st.remote :: Ev.rd :: Ev.rd :: Ev.wr "BDR,1,0,0" st.remote ::
    Ev.rd :: Ev.wr "&" st.remote :: Ev.rd :: Ev.wr "BDR,1,1,0" st.remote ::
    Ev.rd :: Ev.wr "&" st.remote :: Ev.rd :: evs₄, ?_, ?_⟩
  · rw [htr₄]
    simp
  · exact flagsLe_cons (flagsLe_rd_cons (flagsLe_rd_cons (flagsLe_cons (flagsLe_rd_cons
      (flagsLe_cons (flagsLe_rd_cons (flagsLe_cons (flagsLe_rd_cons
      (flagsLe_cons (flagsLe_rd_cons hfl₄))))))))))

theorem final_get_scalar2 {res2 res10 : Results} {toks10 : List String} {ints : List Dec}
    (hsf10 : storeFields res2 toks10 (blockFields "10") = (res10, none))
    (k : String)
    (hk : k ∈ ["Le2", "Lv2", "X2", "Y2", "Z2", "x2", "y2", "u2", "v2", "T2", "Duv2"]) :
    dictGet (dictSet res10 "spectrum" (Value.spec (spectrumPairs 380 ints))) k =
      dictGet res2 k := by
  have h1 : k ≠ "spectrum" := by fin_cases hk <;> decide
  rw [dictGet_dictSet_ne _ _ _ _ h1]
  apply dictGet_storeFields hsf10
  fin_cases hk <;> decide

theorem pyStripL_cons_ws {c : Char} (cs : List Char) (h : pyWS c = true) :
    pyStripL (c :: cs) = pyStripL cs := by
  unfold pyStripL
  rw [List.dropWhile_cons, if_pos h]

theorem dropWhile_append_one {p : Char → Bool} : ∀ (l : List Char) (c : Char),
    List.dropWhile p (l ++ [c]) =
      if (List.dropWhile p l).isEmpty then List.dropWhile p [c]
      else List.dropWhile p l ++ [c] := by
  intro l c
  induction l with
  | nil => simp
  | cons a l ih =>
    by_cases hp : p a = true
    · simpa [List.dropWhile_cons, hp] using ih
    · simp [List.dropWhile_cons, hp]

theorem pyStripL_append_ws (cs : List Char) {c : Char} (h : pyWS c = true) :
    pyStripL (cs ++ [c]) = pyStripL cs := by
  unfold pyStripL stripBack
  rw [dropWhile_append_one]
  by_cases he : (List.dropWhile pyWS cs).isEmpty
  · rw [if_pos he]
    rw [List.isEmpty_iff] at he
    rw [he]
    rw [show List.dropWhile pyWS [c] = [] from by rw [List.dropWhile_cons, if_pos h]; rfl]
  · rw [if_neg he]
    simp [List.reverse_append, List.dropWhile_cons, h]

theorem specTok_ws_front (a : String) : specTok (" " ++ a) = specTok a := by
  unfold specTok pyStrip
  rw [show (" " ++ a).data = ' ' :: a.data from by rw [String.data_append]; rfl,
    pyStripL_cons_ws a.data (by decide)]

theorem specTok_nl_back (a : String) : specTok (a ++ "\n") = specTok a := by
  unfold specTok pyStrip
  rw [show (a ++ "\n").data = a.data ++ ['\n'] from by rw [String.data_append],
    pyStripL_append_ws a.data (by decide)]

theorem specTok_sp_back (a : String) : specTok (a ++ " ") = specTok a := by
  unfold specTok pyStrip
  rw [show (a ++ " ").data = a.data ++ [' '] from by rw [String.data_append],
    pyStripL_append_ws a.data (by decide)]

/-- C1, counterexample: on a driver holding a previous result `Le2 = 99`,
a run of `measure()` whose 2° block completes and whose 10° data read then
fails with a transport error leaves `Le2` rebound to the freshly parsed
value: the stored result mapping after the failing call differs from the
mapping before it, refuting the claim that it is left unchanged. -/
theorem spec_c1_counterexample :
    (measure stPrev wBroken).errOf = some Err.transport ∧
    dictGet (measure stPrev wBroken).stOf.results "Le2" ≠ dictGet stPrev.results "Le2" := by
  decide

/-- C1, amended: if `measure()` (called with remote control already
enabled) raises at a point where at most three reply lines have been read,
i.e. before the first 2° data reply line has been received, the stored
result mapping is unchanged.  (After that point the fields already parsed
by the in-progress measurement remain merged into the stored mapping, as
the counterexample shows.) -/
theorem spec_c1_amended (st : St) (w : Wire) (hrem : st.remote = true)
    (he : (measure st w).errOf.isSome = true)
    (hri : (measure st w).wOf.ri ≤ w.ri + 3) :
    (measure st w).stOf.results = st.results := by
  rw [measure_remote_on st w hrem] at hri ⊢
  unfold measureMain at hri ⊢
  rcases mesPhase_cases st w with ⟨wE, evs, hE, -, -, -, -, -⟩ | ⟨s₀, s₁, hr₀, hr₁, hok₁⟩
  · rw [hE, Out.bind_err, Out.stOf_err]
  rw [hok₁, Out.bind_ok] at hri ⊢
  rcases blockPhase_cases "BDR,1,0,0" "2" st (advR (advR (advW w "MES,1" st.remote))) with
    ⟨e₂, res₂, wE₂, evs₂, hE₂, -, -, -, hdisj₂⟩ | ⟨line2, res2, hline2, hsf2, hok₂⟩
  · rw [hE₂, Out.bind_err] at hri ⊢
    rw [Out.stOf_err]
    rw [Out.wOf_err] at hri
    rcases hdisj₂ with ⟨hres, -⟩ | hri₂
    · rw [hres]
    · exfalso
      simp only [advR_ri, advW_ri] at hri₂
      omega
  · exfalso
    rw [hok₂, Out.bind_ok] at hri
    have h1 : (advR (advW (advR (advW (advR (advR (advW w "MES,1" st.remote)))
        "BDR,1,0,0" st.remote)) "&" st.remote)).ri ≤ w.ri + 3 :=
      le_trans (le_trans (blockPhase_ri_mono "BDR,1,1,0" "10"
        { st with results := res2 } _)
        (bind_ri_ge _ _ (fun a st₁ w₁ _ => spectralPhase_ri_mono st₁ w₁))) hri
    simp only [advR_ri, advW_ri] at h1
    omega


/-- Concrete instance of the amended C1 theorem: a driver holding a
previous result, on a wire that fails on the third read, keeps its stored
results across the failing call. -/
theorem spec_c1_amended_witness :
    stPrev.remote = true ∧ (measure stPrev wEarlyFail).errOf.isSome = true ∧
    (measure stPrev wEarlyFail).wOf.ri ≤ wEarlyFail.ri + 3 ∧
    (measure stPrev wEarlyFail).stOf.results = stPrev.results :=
  ⟨rfl, by decide, by decide, spec_c1_amended stPrev wEarlyFail rfl (by decide) (by decide)⟩

/-- C6: a `set_remote` call requesting the current state performs no
transport operation and returns the state unchanged; from the disabled
state, disabling again is a no-op, and after a successful enable (which
writes `RMT,1` once and reads one reply) a second enable call is the
identity, so `RMT,1` goes out exactly once. -/
theorem spec_c6 (st : St) (w : Wire) :
    set_remote st.remote st w = Out.ok () st w ∧
    (st.remote = false →
      set_remote false st w = Out.ok () st w ∧
      ((set_remote true st w).errOf = none →
        (set_remote true st w).wOf.trace = w.trace ++ [Ev.wr "RMT,1" false, Ev.rd] ∧
        set_remote true (set_remote true st w).stOf (set_remote true st w).wOf =
          Out.ok () (set_remote true st w).stOf (set_remote true st w).wOf)) := by
  refine ⟨set_remote_noop st w, fun hrem => ⟨?_, fun hok => ?_⟩⟩
  · rw [← hrem]
    exact set_remote_noop st w
  · rcases set_remote_true_cases st w hrem with ⟨wE, evs, hE, -, -, -, -⟩ | ⟨s, hw, hrres, hokR⟩
    · rw [hE, Out.errOf_err] at hok
      exact Option.noConfusion hok
    · rw [hokR, Out.wOf_ok, Out.stOf_ok]
      refine ⟨by simp, ?_⟩
      unfold set_remote
      rw [if_pos rfl, if_pos rfl]


/-- Concrete instance of the C6 theorem on the connected,
remote-disabled driver and the canned wire. -/
theorem spec_c6_witness :
    set_remote stGoodOff.remote stGoodOff wGoodR = Out.ok () stGoodOff wGoodR ∧
    (stGoodOff.remote = false →
      set_remote false stGoodOff wGoodR = Out.ok () stGoodOff wGoodR ∧
      ((set_remote true stGoodOff wGoodR).errOf = none →
        (set_remote true stGoodOff wGoodR).wOf.trace =
          wGoodR.trace ++ [Ev.wr "RMT,1" false, Ev.rd] ∧
        set_remote true (set_remote true stGoodOff wGoodR).stOf
            (set_remote true stGoodOff wGoodR).wOf =
          Out.ok () (set_remote true stGoodOff wGoodR).stOf
            (set_remote true stGoodOff wGoodR).wOf)) :=
  spec_c6 stGoodOff wGoodR

/-- C7: every measurement command (`MES,1`, a `BDR` variant, or `&`)
written to the transport by `measure()` is written while the remote flag is
true, in every run from every state; and a `disconnect()` that returns
normally leaves the remote flag false. -/
theorem spec_c7 (st : St) (w : Wire) :
    (∃ evs, (measure st w).wOf.trace = w.trace ++ evs ∧
      ∀ c b, Ev.wr c b ∈ evs → c ∈ measCmds → b = true) ∧
    ((disconnect st w).errOf = none → (disconnect st w).stOf.remote = false) := by
  constructor
  · by_cases hrem : st.remote = true
    · rw [measure_remote_on st w hrem]
      obtain ⟨evs, htr, hfl⟩ := measureMain_trace st w
      refine ⟨evs, htr, fun c b hb _ => ?_⟩
      rw [hfl c b hb]
      exact hrem
    · have hrem' : st.remote = false := by
        cases hb : st.remote
        · rfl
        · exact absurd hb hrem
      rw [measure_remote_off st w hrem']
      rcases set_remote_true_cases st w hrem' with ⟨wE, evs, hE, htr, hRMT, -, -⟩ |
        ⟨s, hw, hrres, hokR⟩
      · rw [hE, Out.bind_err, Out.wOf_err]
        refine ⟨evs, htr, ?_⟩
        intro c b hb hc
        obtain ⟨hc', -⟩ := hRMT c b hb
        subst hc'
        exact absurd hc (by decide)
      · rw [hokR, Out.bind_ok]
        obtain ⟨evs, htr, hfl⟩ := measureMain_trace { st with remote := true }
          (advR (advW w "RMT,1" false))
        refine ⟨Ev.wr "RMT,1" false :: Ev.rd :: evs, ?_, ?_⟩
        · rw [htr]
          simp
        · intro c b hb hc
          rcases List.mem_cons.mp hb with h' | h'
          · injection h' with h₁ h₂
            subst h₁
            exact absurd hc (by decide)
          rcases List.mem_cons.mp h' with h'' | h''
          · exact Ev.noConfusion h''
          · exact hfl c b h''
  · intro h
    exact (disconnect_ok_state st w h).2


/-- Concrete instance of the C7 theorem on the remote-enabled driver and
the canned wire. -/
theorem spec_c7_witness :
    (∃ evs, (measure stGood wGood).wOf.trace = wGood.trace ++ evs ∧
      ∀ c b, Ev.wr c b ∈ evs → c ∈ measCmds → b = true) ∧
    ((disconnect stGood wGood).errOf = none →
      (disconnect stGood wGood).stOf.remote = false) :=
  spec_c7 stGood wGood

/-- C8, counterexample: on a connected, remote-enabled driver whose port
rejects every write, `disconnect()` raises the transport error but leaves
the handle in place, so the driver still reports connected — refuting the
claim that the disconnect completes logically. -/
theorem spec_c8_counterexample :
    (disconnect stGood wDeadPort).errOf = some Err.transport ∧
    get_connected (disconnect stGood wDeadPort).stOf = true := by
  decide

/-- C8, amended: when the `RMT,0` write inside `set_remote(false)` fails
during `disconnect()`, the `TransportError` is surfaced to the caller, but
the disconnect does not complete logically: the state is left exactly as it
was, so the handle is not cleared, the driver still reports its previous
connection state, and remote stays enabled. -/
theorem spec_c8_amended (st : St) (w : Wire) (hrem : st.remote = true)
    (he : (set_remote false st w).errOf.isSome = true) :
    disconnect st w = Out.err Err.transport st w ∧
    (disconnect st w).errOf = some Err.transport ∧
    get_connected (disconnect st w).stOf = get_connected st ∧
    (disconnect st w).stOf.remote = true := by
  rcases set_remote_false_cases st w hrem with hE | ⟨hcom, hw, hok⟩
  · have hd : disconnect st w = Out.err Err.transport st w := by
      unfold disconnect
      rw [if_pos hrem, hE, Out.bind_err]
    rw [hd]
    exact ⟨rfl, rfl, rfl, hrem⟩
  · rw [hok, Out.errOf_ok] at he
    exact Bool.noConfusion he


/-- Concrete instance of the amended C8 theorem: disconnecting a connected,
remote-enabled driver over a dead port surfaces the transport error and
leaves the driver connected with remote still on. -/
theorem spec_c8_amended_witness :
    stGood.remote = true ∧ (set_remote false stGood wDeadPort).errOf.isSome = true ∧
    (disconnect stGood wDeadPort = Out.err Err.transport stGood wDeadPort ∧
     (disconnect stGood wDeadPort).errOf = some Err.transport ∧
     get_connected (disconnect stGood wDeadPort).stOf = get_connected stGood ∧
     (disconnect stGood wDeadPort).stOf.remote = true) :=
  ⟨rfl, by decide, spec_c8_amended stGood wDeadPort rfl (by decide)⟩

/-- C9: after `set_remote(false)` on a connected, remote-enabled driver the
driver still reports connected — on success because the handle is replaced
by a fresh unopened `serial.Serial()` rather than cleared — and only a
`disconnect()` that returns normally makes `get_connected` false (it sets
the handle to none). -/
theorem spec_c9 (st : St) (w : Wire) (hrem : st.remote = true)
    (hconn : get_connected st = true) :
    get_connected (set_remote false st w).stOf = true ∧
    ((set_remote false st w).errOf = none →
      (set_remote false st w).stOf.com = some ComHandle.fresh) ∧
    (∀ (st₂ : St) (w₂ : Wire), (disconnect st₂ w₂).errOf = none →
      get_connected (disconnect st₂ w₂).stOf = false) := by
  refine ⟨?_, ?_, ?_⟩
  · rcases set_remote_false_cases st w hrem with hE | ⟨hcom, hw, hok⟩
    · rw [hE, Out.stOf_err]
      exact hconn
    · rw [hok, Out.stOf_ok]
      rfl
  · intro h
    rcases set_remote_false_cases st w hrem with hE | ⟨hcom, hw, hok⟩
    · rw [hE, Out.errOf_err] at h
      exact Option.noConfusion h
    · rw [hok, Out.stOf_ok]
  · intro st₂ w₂ h
    have hcom := (disconnect_ok_state st₂ w₂ h).1
    unfold get_connected
    rw [hcom]
    rfl


/-- Concrete instance of the C9 theorem on the connected, remote-enabled
driver and the canned wire. -/
theorem spec_c9_witness :
    stGood.remote = true ∧ get_connected stGood = true ∧
    (get_connected (set_remote false stGood wGood).stOf = true ∧
     ((set_remote false stGood wGood).errOf = none →
       (set_remote false stGood wGood).stOf.com = some ComHandle.fresh) ∧
     (∀ (st₂ : St) (w₂ : Wire), (disconnect st₂ w₂).errOf = none →
       get_connected (disconnect st₂ w₂).stOf = false)) :=
  ⟨rfl, by decide, spec_c9 stGood wGood rfl (by decide)⟩

/-- C2: in every successful run of `measure()` from a remote-enabled state,
the 2° data line (the 4th reply read) and the 10° data line (the 6th) are
split on commas; the first nine fields are stored as parsed floats under
`Le/Lv/X/Y/Z/x/y/u/v` with suffix `2` resp. `10`, the 10th field is stored
raw as the color temperature `T`, and `Duv` is stored as the raw string
taken from the same index 8 as `v`.  In particular, on the canned reply
line `"12.3,...,0.2,6500"` this yields `Le2 = 12.3`, `Y2 = 2.2`,
`T2 = "6500"` and `Duv2 = "0.2"`, the raw string at the index of `v`. -/
theorem spec_c2 (st : St) (w : Wire) (hrem : st.remote = true)
    (hok : (measure st w).errOf = none) : c2Concl st w := by
  rw [measure_remote_on st w hrem] at hok
  obtain ⟨a, st', w', hm⟩ := errOf_none_ok hok
  cases a
  obtain ⟨line2, line10, lines, res2, res10, ints, hl2, hl10, -, -, hsf2, hsf10, -,
    hst', -, -, -⟩ := measureMain_ok st st' w w' hrem hm
  obtain ⟨hflt2, hT2, hDuv2⟩ := storeFields_block2 hsf2
  obtain ⟨hflt10, hT10, hDuv10⟩ := storeFields_block10 hsf10
  have hres : (measure st w).stOf.results =
      dictSet res10 "spectrum" (Value.spec (spectrumPairs 380 ints)) := by
    rw [measure_remote_on st w hrem, hm, Out.stOf_ok, hst']
  refine ⟨line2, line10, hl2, hl10, ?_, ?_, ?_, ?_, ?_, ?_⟩
  · intro i hi
    obtain ⟨q, hq, hget⟩ := hflt2 i hi
    refine ⟨q, hq, ?_⟩
    rw [hres, final_get_scalar2 hsf10 _ (by interval_cases i <;> decide)]
    exact hget
  · rw [hres, final_get_scalar2 hsf10 _ (by decide)]
    exact hT2
  · rw [hres, final_get_scalar2 hsf10 _ (by decide)]
    exact hDuv2
  · intro i hi
    obtain ⟨q, hq, hget⟩ := hflt10 i hi
    refine ⟨q, hq, ?_⟩
    have hne : (floatKeys "10").getD i "" ≠ "spectrum" := by interval_cases i <;> decide
    rw [hres, dictGet_dictSet_ne _ _ _ _ hne]
    exact hget
  · rw [hres, dictGet_dictSet_ne _ _ _ _ (show ("T10" : String) ≠ "spectrum" from by decide)]
    exact hT10
  · rw [hres, dictGet_dictSet_ne _ _ _ _ (show ("Duv10" : String) ≠ "spectrum" from by decide)]
    exact hDuv10


/-- Concrete instance of the C2 theorem: a full successful run on the
canned replies, whose 2-degree data line is the worked example of the
specification. -/
theorem spec_c2_witness :
    stGood.remote = true ∧ (measure stGood wGood).errOf = none ∧ c2Concl stGood wGood :=
  ⟨rfl, by decide, spec_c2 stGood wGood rfl (by decide)⟩

/-- C3: a successful `measure()` writes exactly the fixed command sequence
and reads exactly the fixed reply counts, with no other wire traffic
interleaved: optionally `RMT,1` followed by one read (when remote control
was off), then `MES,1` (2 reads), `BDR,1,0,0` (1), `&` (1), `BDR,1,1,0`
(1), `&` (1), `BDR,0,0,0` (1), and 15 times `&` (1 read each); in total 22
reads, 23 with the `RMT,1` reply. -/
theorem spec_c3 (st : St) (w : Wire) (hok : (measure st w).errOf = none) :
    (measure st w).wOf.trace = w.trace ++
      ((if st.remote then [] else [Ev.wr "RMT,1" false, Ev.rd]) ++ measEvs) ∧
    (measure st w).wOf.ri = w.ri + (if st.remote then 22 else 23) := by
  by_cases hrem : st.remote = true
  · rw [measure_remote_on st w hrem] at hok ⊢
    obtain ⟨a, st', w', hm⟩ := errOf_none_ok hok
    cases a
    obtain ⟨l2, l10, lines, r2, r10, ints, -, -, -, -, -, -, -, -, hri, -, htr⟩ :=
      measureMain_ok st st' w w' hrem hm
    rw [hm, Out.wOf_ok, hrem]
    constructor
    · rw [htr]
      simp
    · rw [hri]
      simp
  · have hrem' : st.remote = false := by
      cases hb : st.remote
      · rfl
      · exact absurd hb hrem
    rw [measure_remote_off st w hrem'] at hok ⊢
    rcases set_remote_true_cases st w hrem' with ⟨wE, evs, hE, -, -, -, -⟩ |
      ⟨s, hw, hrres, hokR⟩
    · rw [hE, Out.bind_err, Out.errOf_err] at hok
      exact Option.noConfusion hok
    rw [hokR, Out.bind_ok] at hok ⊢
    obtain ⟨a, st', w', hm⟩ := errOf_none_ok hok
    cases a
    obtain ⟨l2, l10, lines, r2, r10, ints, -, -, -, -, -, -, -, -, hri, -, htr⟩ :=
      measureMain_ok _ st' _ w' rfl hm
    rw [hm, Out.wOf_ok, hrem']
    constructor
    · rw [htr]
      simp
    · rw [hri, if_neg Bool.false_ne_true]
      simp only [advR_ri, advW_ri]
      try omega


/-- Concrete instance of the C3 theorem: a full successful run from the
remote-disabled state, which issues `RMT,1` before the fixed measurement
sequence and reads 23 reply lines in total. -/
theorem spec_c3_witness :
    (measure stGoodOff wGoodR).errOf = none ∧
    ((measure stGoodOff wGoodR).wOf.trace = wGoodR.trace ++
      ((if stGoodOff.remote then [] else [Ev.wr "RMT,1" false, Ev.rd]) ++ measEvs) ∧
     (measure stGoodOff wGoodR).wOf.ri = wGoodR.ri + (if stGoodOff.remote then 22 else 23)) :=
  ⟨by decide, spec_c3 stGoodOff wGoodR (by decide)⟩

/-- C4: in every successful run of `measure()` from a remote-enabled state
in which each of the 15 spectral reply lines splits into 10 comma-separated
tokens, the stored spectrum is a sequence of exactly 150
(wavelength, intensity) pairs, the wavelengths being 380, 381, ..., 529 in
order, with the intensity at position `i` equal to the `i`-th token of the
concatenated 15-line token sequence parsed as a float. -/
theorem spec_c4 (st : St) (w : Wire) (hrem : st.remote = true)
    (hok : (measure st w).errOf = none)
    (htok : ∀ j, j < 15 → (pySplit ',' ((w.rres (w.ri + 7 + j)).getD "")).length = 10) :
    c4Concl st w := by
  rw [measure_remote_on st w hrem] at hok
  obtain ⟨a, st', w', hm⟩ := errOf_none_ok hok
  cases a
  obtain ⟨l2, l10, lines, r2, r10, ints, -, -, hlen, hrd, -, -, hparse, hst', -, -, -⟩ :=
    measureMain_ok st st' w w' hrem hm
  have hlines10 : ∀ l ∈ lines, (pySplit ',' l).length = 10 := by
    intro l hl
    obtain ⟨⟨j, hj⟩, hgl⟩ := List.mem_iff_get.mp hl
    have hj15 : j < 15 := by rw [← hlen]; exact hj
    have hgd : lines.getD j "" = l := by
      rw [List.getD_eq_getElem lines "" hj]
      exact hgl
    have hx := htok j hj15
    rw [hrd j hj15, Option.getD_some, hgd] at hx
    exact hx
  have hflatlen : ((lines.map (pySplit ',')).flatten).length = 150 := by
    rw [flatten_map_split_length lines hlines10, hlen]
  have hintslen : ints.length = 150 := by
    rw [parseFloats_length hparse, hflatlen]
  refine ⟨lines, ints, hlen, hrd, hparse, hintslen, ?_, ?_, ?_⟩
  · rw [measure_remote_on st w hrem, hm, Out.stOf_ok, hst']
    show dictGet (dictSet r10 "spectrum" (Value.spec (spectrumPairs 380 ints))) "spectrum" =
      some (Value.spec (spectrumPairs 380 ints))
    exact dictGet_dictSet_self _ _ _
  · rw [spectrumPairs_length, hintslen]
  · intro i hi
    refine ⟨ints.getD i ⟨0, 0⟩, ?_, ?_⟩
    · exact parseFloats_getD hparse i (by rw [hflatlen]; exact hi)
    · exact spectrumPairs_getD ints 380 i (by rw [hintslen]; exact hi)


/-- Concrete instance of the C4 theorem: on the canned replies every
spectral line splits into 10 tokens and the stored spectrum has the claimed
shape. -/
theorem spec_c4_witness :
    stGood.remote = true ∧ (measure stGood wGood).errOf = none ∧
    (∀ j, j < 15 →
      (pySplit ',' ((wGood.rres (wGood.ri + 7 + j)).getD "")).length = 10) ∧
    c4Concl stGood wGood :=
  ⟨rfl, by decide, by decide, spec_c4 stGood wGood rfl (by decide) (by decide)⟩

/-- C5, counterexample: a successful run of `measure()` on well-formed
canned replies stores exactly the 23 keys of `allKeys` — 22 scalar fields
(11 per observer block) plus `spectrum` — and not 21 scalar fields plus
`spectrum` (22 keys) as claimed. -/
theorem spec_c5_counterexample :
    (measure stGood wGood).errOf = none ∧
    keysOf (measure stGood wGood).stOf.results = allKeys ∧
    (keysOf (measure stGood wGood).stOf.results).length ≠ 22 := by
  decide

theorem insertKeys_singleton (ks : List String) (k : String) :
    insertKeys ks [k] = insKey ks k :=
  rfl

theorem insertKeys_blocks (K : List String) :
    insKey (insertKeys (insertKeys K
      ((blockFields "2").map (fun f => f.1))) ((blockFields "10").map (fun f => f.1)))
      "spectrum" = insertKeys K allKeys := by
  rw [show allKeys = ((blockFields "2").map (fun f => f.1)) ++
    (((blockFields "10").map (fun f => f.1)) ++ ["spectrum"]) from by decide]
  rw [insertKeys_append, insertKeys_append, insertKeys_singleton]

theorem insertKeys_allKeys (K t : List String) (ht : K ++ t = allKeys) :
    insertKeys K allKeys = allKeys := by
  rw [← ht, insertKeys_append, insertKeys_sub K K (fun x hx => hx),
    insertKeys_nodup t K (by rw [ht]; decide)]

theorem keysOf_measureMain (st₁ : St) (w₁ : Wire) (hr₁ : st₁.remote = true)
    (hok₁ : (measureMain st₁ w₁).errOf = none) :
    keysOf (measureMain st₁ w₁).stOf.results = insertKeys (keysOf st₁.results) allKeys := by
  obtain ⟨a, st', w', hm⟩ := errOf_none_ok hok₁
  cases a
  obtain ⟨l2, l10, lines, r2, r10, ints, -, -, -, -, hsf2, hsf10, -, hst', -, -, -⟩ :=
    measureMain_ok st₁ st' w₁ w' hr₁ hm
  rw [hm, Out.stOf_ok, hst']
  show keysOf (dictSet r10 "spectrum" (Value.spec (spectrumPairs 380 ints))) =
    insertKeys (keysOf st₁.results) allKeys
  rw [keysOf_dictSet, keysOf_storeFields hsf10, keysOf_storeFields hsf2]
  exact insertKeys_blocks (keysOf st₁.results)

/-- C5, amended: for every successful run of `measure()` from a state
whose stored keys are an initial segment of `allKeys` (as in every
reachable state: a fresh driver or one holding a previous measurement),
the resulting result mapping holds exactly the 22 scalar fields plus the
key `spectrum` — the 23 keys of `allKeys`, in insertion order — and no
other keys. -/
theorem spec_c5_amended (st : St) (w : Wire)
    (hpre : ∃ t, keysOf st.results ++ t = allKeys)
    (hok : (measure st w).errOf = none) :
    keysOf (measure st w).stOf.results = allKeys := by
  obtain ⟨t, ht⟩ := hpre
  by_cases hrem : st.remote = true
  · rw [measure_remote_on st w hrem] at hok ⊢
    rw [keysOf_measureMain st w hrem hok]
    exact insertKeys_allKeys _ t ht
  · have hrem' : st.remote = false := by
      cases hb : st.remote
      · rfl
      · exact absurd hb hrem
    rw [measure_remote_off st w hrem'] at hok ⊢
    rcases set_remote_true_cases st w hrem' with ⟨wE, evs, hE, -, -, -, -⟩ |
      ⟨s, hw, hrres, hokR⟩
    · rw [hE, Out.bind_err, Out.errOf_err] at hok
      exact Option.noConfusion hok
    · rw [hokR, Out.bind_ok] at hok ⊢
      rw [keysOf_measureMain { st with remote := true } (advR (advW w "RMT,1" false)) rfl hok]
      exact insertKeys_allKeys _ t ht


/-- Concrete instance of the amended C5 theorem: the successful canned run
from an empty result mapping stores exactly the 23 keys of `allKeys`. -/
theorem spec_c5_amended_witness :
    (∃ t, keysOf stGood.results ++ t = allKeys) ∧
    (measure stGood wGood).errOf = none ∧
    keysOf (measure stGood wGood).stOf.results = allKeys :=
  ⟨⟨allKeys, by decide⟩, by decide,
    spec_c5_amended stGood wGood ⟨allKeys, by decide⟩ (by decide)⟩

/-- C10: every spectral token is stripped of surrounding whitespace before
being parsed (`float(a.strip())`), so leading or trailing spaces and
newlines on a token never change the outcome of its parse — in particular
they never by themselves cause a parse error; by contrast, the raw-stored
`T2`/`T10` and `Duv2`/`Duv10` fields keep whatever whitespace the reply
line carried at their index, as the concrete run on CR-LF terminated,
space-padded replies shows: `measure()` succeeds, `T2` keeps its trailing
`"\r\n"`, and `Duv2` keeps the leading space of the `v` token, which itself
still parses as `0.2`. -/
theorem spec_c10 :
    (∀ a : String, specTok (" " ++ a) = specTok a ∧ specTok (a ++ "\n") = specTok a ∧
      specTok (a ++ " ") = specTok a) ∧
    (measure stGood wWs).errOf = none ∧
    dictGet (measure stGood wWs).stOf.results "T2" = some (Value.str "6500\r\n") ∧
    dictGet (measure stGood wWs).stOf.results "Duv2" = some (Value.str " 0.2") ∧
    dictGet (measure stGood wWs).stOf.results "v2" = some (Value.num ⟨2, 1⟩) ∧
    dictGet (measure stGood wWs).stOf.results "T10" = some (Value.str "5003\r\n") := by
  refine ⟨fun a => ⟨specTok_ws_front a, specTok_nl_back a, specTok_sp_back a⟩,
    ?_, ?_, ?_, ?_, ?_⟩
  · decide
  · decide
  · decide
  · decide
  · decide

end CS1000
